import Mathlib

/-!
# LoRaScope: listening engine and statistics model

A shallow embedding of `src/common.h`, `src/scanner.cpp` and
`src/statistics.cpp`.  Machine integers are `Nat`/`Int` with explicit
wrap-around; the clock `millis()` and the radio adapter are inputs.
-/

deriving instance DecidableEq for Except

namespace LoRaScope

/-! ## Machine integers -/

/-- Conversion of an integer to `uint32_t` (reduction modulo 2^32). -/
def toU32 (x : Int) : Nat := (x % 4294967296).toNat

/-- Conversion of an integer to `uint16_t` (reduction modulo 2^16). -/
def toU16 (x : Int) : Nat := (x % 65536).toNat

/-- Conversion of an integer to `uint8_t` (reduction modulo 2^8). -/
def toU8 (x : Int) : Nat := (x % 256).toNat

/-- Conversion of an integer to `int16_t` (two's complement truncation). -/
def toInt16 (x : Int) : Int := (x + 32768) % 65536 - 32768

/-- Subtraction of two `uint32_t` values, as in `millis() - t0`. -/
def subU32 (a b : Nat) : Nat := toU32 ((a : Int) - (b : Int))

/-! ## Data model (`common.h`) -/

/-- The `EventType` enumeration. -/
inductive EventType where
  | EVENT_RX_DONE
  | EVENT_RX_CRC_ERROR
  | EVENT_RX_TIMEOUT
  deriving DecidableEq, Repr

/-- The `FrequencyConfig` record. -/
structure FrequencyConfig where
  frequency : Nat := 433000000
  dwellTime : Nat := 1000
  bandwidth : Nat := 125
  spreadingFactor : Nat := 7
  codingRate : Nat := 5
  deriving DecidableEq, Repr

/-- The `RadarPoint` record, with the defaults of its constructor. -/
structure RadarPoint where
  timestamp : Nat := 0
  frequency : Nat := 0
  rssi : Int := -120
  snr : Int := -20
  packetLength : Nat := 0
  eventType : EventType := EventType.EVENT_RX_TIMEOUT
  deriving DecidableEq, Repr

/-- The `EventStats` record, with the defaults of its constructor. -/
structure EventStats where
  totalEvents : Nat := 0
  rxDoneCount : Nat := 0
  rxErrorCount : Nat := 0
  avgRssi : Int := -120
  maxRssi : Int := -120
  minRssi : Int := -120
  lastEventTime : Nat := 0
  firstEventTime : Nat := 0
  deriving DecidableEq, Repr

/-- The `ListenerConfig` record, with the defaults of its constructor. -/
structure ListenerConfig where
  frequencies : List FrequencyConfig := []
  currentFreqIndex : Nat := 0
  rxWindowMs : Nat := 1000
  bandwidth : Nat := 125
  spreadingFactor : Nat := 7
  codingRate : Nat := 5
  maxPoints : Nat := 100
  deriving DecidableEq, Repr

/-- The `FrequencyStats` record, with the defaults of its constructor.  The
activity score is carried as an exact rational. -/
structure FrequencyStats where
  frequency : Nat := 0
  sampleCount : Nat := 0
  avgRssi : Int := -120
  maxRssi : Int := -120
  minRssi : Int := -120
  packetCount : Nat := 0
  activityScore : ℚ := 0
  lastSeen : Nat := 0
  deriving DecidableEq, Repr

/-- Modelled from the spec: the frame type `RecvFrame_t` is declared by the
radio library, outside the repository; section 6 gives
`receiveFrame() -> {code, rssi, length}`.  The RSSI is an `int`, the length
a byte. -/
structure RecvFrame_t where
  recv_data_len : Nat := 0
  rssi : Int := 0
  deriving DecidableEq, Repr

/-- The fields of `ScopeDisplay` (`display.h`) that the listener writes. -/
structure ScopeDisplay where
  currentRssi : Int := 0
  currentFreq : Nat := 0
  currentFreqIndex : Nat := 0
  totalFreqCount : Nat := 0
  deriving DecidableEq, Repr

/-- The body of `ScopeDisplay::setCurrentFreq`. -/
def ScopeDisplay.setCurrentFreq (d : ScopeDisplay) (freq : Nat) : ScopeDisplay :=
  { d with currentFreq := freq }

/-- The body of `ScopeDisplay::setCurrentRssi`. -/
def ScopeDisplay.setCurrentRssi (d : ScopeDisplay) (rssi : Int) : ScopeDisplay :=
  { d with currentRssi := rssi }

/-- The body of `ScopeDisplay::setCurrentFreqIndex`; both parameters are
`uint8_t`. -/
def ScopeDisplay.setCurrentFreqIndex (d : ScopeDisplay) (index total : Nat) :
    ScopeDisplay :=
  { d with currentFreqIndex := index % 256, totalFreqCount := total % 256 }

/-- The replies of the radio adapter (`LoRaAdapter`): whether each of its
configuration calls succeeds. -/
structure LoRaAdapter where
  initOk : Bool := true
  setFrequencyOk : Bool := true
  setBandwidthOk : Bool := true
  setSpreadingFactorOk : Bool := true
  setCodingRateOk : Bool := true
  deriving DecidableEq, Repr

/-- The state of a `FrequencyListener` (`scanner.h`); `lora` and
`scopeDisplay` are `none` for a null pointer. -/
structure FrequencyListener where
  lora : Option LoRaAdapter := none
  config : ListenerConfig := {}
  listenTaskHandle : Option Nat := none
  isListening : Bool := false
  shouldStop : Bool := false
  lastEventTime : Nat := 0
  radarPoints : List RadarPoint := []
  eventStats : EventStats := {}
  scopeDisplay : Option ScopeDisplay := none
  deriving DecidableEq, Repr

/-- The ways an operation leaves defined behaviour. -/
inductive Fault where
  | indexOutOfRange
  | divideByZero
  deriving DecidableEq, Repr

/-- Unchecked `std::vector::operator[]`: defined only in range. -/
def vecAt {α : Type} (v : List α) (i : Nat) : Except Fault α :=
  match v[i]? with
  | some a => Except.ok a
  | none => Except.error Fault.indexOutOfRange

/-! ## `FrequencyListener` (`scanner.cpp`) -/

/-- History append of `handleRxDone`/`handleRxError`: `push_back`, then
erase the first element when the size exceeds `maxPoints`. -/
def pushPoint (pts : List RadarPoint) (maxPoints : Nat) (point : RadarPoint) :
    List RadarPoint :=
  let pts1 := pts ++ [point]
  if pts1.length > maxPoints then pts1.tail else pts1

/-- The update of `avgRssi` on line 238,
`(avgRssi * (totalEvents - 1) + rssi) / totalEvents`, evaluated in
`uint32_t` as the operand types dictate and stored into an `int16_t`;
`totalEvents` is the value after the increment. -/
def avgUpdate (avgRssi : Int) (totalEvents : Nat) (rssi : Int) : Except Fault Int :=
  if totalEvents = 0 then Except.error Fault.divideByZero
  else
    let numer := (toU32 avgRssi * subU32 totalEvents 1 + toU32 rssi) % 4294967296
    Except.ok (toInt16 ((numer / totalEvents : Nat) : Int))

/-- The method `FrequencyListener::setFrequency`; only its result is
observable to the listener. -/
def FrequencyListener.setFrequency (L : FrequencyListener) (_freq : Nat) : Bool :=
  match L.lora with
  | none => false
  | some a => a.setFrequencyOk

/-- The local `point` that `handleRxDone` builds from the clock reading, the
current frequency, the accepted RSSI and the frame length. -/
def rxDonePoint (now freq : Nat) (rssi : Int) (len : Nat) : RadarPoint :=
  { timestamp := now, frequency := freq, rssi := rssi, snr := -20,
    packetLength := len % 256, eventType := EventType.EVENT_RX_DONE }

/-- The local `point` that `handleRxError` builds. -/
def rxErrorPoint (now freq : Nat) : RadarPoint :=
  { timestamp := now, frequency := freq, rssi := -120, snr := -20,
    packetLength := 0, eventType := EventType.EVENT_RX_CRC_ERROR }

/-- The method `FrequencyListener::handleRxDone`; `now` is the reading of
`millis()`. -/
def FrequencyListener.handleRxDone (L : FrequencyListener) (now : Nat)
    (frame : RecvFrame_t) : Except Fault FrequencyListener :=
  let rssi := toInt16 frame.rssi
  if rssi < -120 ∨ rssi > -50 then Except.ok L
  else do
    let fc ← vecAt L.config.frequencies L.config.currentFreqIndex
    let point := rxDonePoint now fc.frequency rssi frame.recv_data_len
    let s := L.eventStats
    let total := (s.totalEvents + 1) % 4294967296
    let avg ← avgUpdate s.avgRssi total point.rssi
    let stats : EventStats :=
      { totalEvents := total
        rxDoneCount := (s.rxDoneCount + 1) % 4294967296
        rxErrorCount := s.rxErrorCount
        avgRssi := avg
        maxRssi := if point.rssi > s.maxRssi then point.rssi else s.maxRssi
        minRssi := if point.rssi < s.minRssi ∨ s.minRssi = -120 then point.rssi
                   else s.minRssi
        lastEventTime := point.timestamp
        firstEventTime := if s.firstEventTime = 0 then point.timestamp
                          else s.firstEventTime }
    Except.ok
      { L with
        radarPoints := pushPoint L.radarPoints L.config.maxPoints point
        eventStats := stats
        scopeDisplay := L.scopeDisplay.map fun d =>
          (d.setCurrentFreq point.frequency).setCurrentRssi point.rssi }

/-- The method `FrequencyListener::handleRxError`. -/
def FrequencyListener.handleRxError (L : FrequencyListener) (now : Nat) :
    Except Fault FrequencyListener := do
  let fc ← vecAt L.config.frequencies L.config.currentFreqIndex
  let point := rxErrorPoint now fc.frequency
  let s := L.eventStats
  let stats : EventStats :=
    { s with
      totalEvents := (s.totalEvents + 1) % 4294967296
      rxErrorCount := (s.rxErrorCount + 1) % 4294967296
      lastEventTime := point.timestamp
      firstEventTime := if s.firstEventTime = 0 then point.timestamp
                        else s.firstEventTime }
  Except.ok
    { L with
      radarPoints := pushPoint L.radarPoints L.config.maxPoints point
      eventStats := stats }

/-- The method `FrequencyListener::clearRadarPoints`. -/
def FrequencyListener.clearRadarPoints (L : FrequencyListener) : FrequencyListener :=
  { L with radarPoints := [] }

/-- The method `FrequencyListener::clearEventStats`. -/
def FrequencyListener.clearEventStats (L : FrequencyListener) : FrequencyListener :=
  { L with eventStats := {} }

/-- Tail shared by `nextFrequency` and `prevFrequency`: store the new
cursor, read the new frequency, re-tune, notify the display. -/
def FrequencyListener.retune (L : FrequencyListener) (idx : Nat) :
    Except Fault FrequencyListener := do
  let fc ← vecAt L.config.frequencies idx
  let _tuned := L.setFrequency fc.frequency
  Except.ok
    { L with
      config := { L.config with currentFreqIndex := idx }
      scopeDisplay := L.scopeDisplay.map fun d =>
        (d.setCurrentFreq fc.frequency).setCurrentFreqIndex idx
          L.config.frequencies.length }

/-- The method `FrequencyListener::nextFrequency`; the cursor is a
`uint16_t`. -/
def FrequencyListener.nextFrequency (L : FrequencyListener) :
    Except Fault FrequencyListener :=
  if L.config.frequencies.isEmpty then Except.ok L
  else
    L.retune (((L.config.currentFreqIndex + 1) % L.config.frequencies.length) % 65536)

/-- The method `FrequencyListener::prevFrequency`. -/
def FrequencyListener.prevFrequency (L : FrequencyListener) :
    Except Fault FrequencyListener :=
  if L.config.frequencies.isEmpty then Except.ok L
  else
    L.retune
      ((if L.config.currentFreqIndex = 0 then L.config.frequencies.length - 1
        else L.config.currentFreqIndex - 1) % 65536)

/-- The method `FrequencyListener::getCurrentFrequency`. -/
def FrequencyListener.getCurrentFrequency (L : FrequencyListener) : Except Fault Nat :=
  if L.config.frequencies.isEmpty then Except.ok 0
  else do
    let fc ← vecAt L.config.frequencies L.config.currentFreqIndex
    Except.ok fc.frequency

/-- The method `FrequencyListener::getCurrentFreqIndex`; the result type is
`uint8_t`. -/
def FrequencyListener.getCurrentFreqIndex (L : FrequencyListener) : Nat :=
  L.config.currentFreqIndex % 256

/-! ### Sequences of calls -/

/-- A call made on a listener: the two event handlers (with the clock
reading they take), the two clearing operations and the two cursor moves. -/
inductive ListenerOp where
  | rxDone (now : Nat) (frame : RecvFrame_t)
  | rxError (now : Nat)
  | clearRadarPoints
  | clearEventStats
  | nextFrequency
  | prevFrequency
  deriving DecidableEq, Repr

/-- Make one call on the listener. -/
def FrequencyListener.call (L : FrequencyListener) : ListenerOp → Except Fault FrequencyListener
  | ListenerOp.rxDone now frame => L.handleRxDone now frame
  | ListenerOp.rxError now => L.handleRxError now
  | ListenerOp.clearRadarPoints => Except.ok L.clearRadarPoints
  | ListenerOp.clearEventStats => Except.ok L.clearEventStats
  | ListenerOp.nextFrequency => L.nextFrequency
  | ListenerOp.prevFrequency => L.prevFrequency

/-- Make a sequence of calls, first to last, stopping at the first fault. -/
def FrequencyListener.run (L : FrequencyListener) : List ListenerOp → Except Fault FrequencyListener
  | [] => Except.ok L
  | op :: ops =>
    match L.call op with
    | Except.ok L1 => L1.run ops
    | Except.error e => Except.error e

/-- The point a call records in state `L`, if any, written out field by
field: for an accepted RxDone the clock reading, the frequency under the
cursor, the RSSI of the frame, the placeholder SNR -20, the frame length as
a byte and the type RxDone; for a CrcError the clock reading, the frequency
under the cursor, RSSI -120, SNR -20, length 0 and the type CrcError. -/
def FrequencyListener.recordedBy (L : FrequencyListener) : ListenerOp → List RadarPoint
  | ListenerOp.rxDone now frame =>
    if toInt16 frame.rssi < -120 ∨ toInt16 frame.rssi > -50 then []
    else
      match L.config.frequencies[L.config.currentFreqIndex]? with
      | some fc =>
        [{ timestamp := now, frequency := fc.frequency, rssi := toInt16 frame.rssi,
           snr := -20, packetLength := frame.recv_data_len % 256,
           eventType := EventType.EVENT_RX_DONE }]
      | none => []
  | ListenerOp.rxError now =>
    match L.config.frequencies[L.config.currentFreqIndex]? with
    | some fc =>
      [{ timestamp := now, frequency := fc.frequency, rssi := -120, snr := -20,
         packetLength := 0, eventType := EventType.EVENT_RX_CRC_ERROR }]
    | none => []
  | _ => []

/-- The points recorded by a sequence of calls, in the order they were
recorded. -/
def FrequencyListener.recordedPoints (L : FrequencyListener) : List ListenerOp → List RadarPoint
  | [] => []
  | op :: ops =>
    L.recordedBy op ++
      (match L.call op with
       | Except.ok L1 => L1.recordedPoints ops
       | Except.error _ => [])

/-- The last `k` elements of a list. -/
def lastN {α : Type} (k : Nat) (xs : List α) : List α := xs.drop (xs.length - k)

/-! ### One iteration of `listenTask` -/

/-- What one evaluation of the RX-window loop observes: the clock at the
loop test, the volatile `shouldStop` flag, whether `Serial2` has data, the
result code and frame of `receiveFrame`, and the clock read by the
handler. -/
structure Poll where
  now : Nat := 0
  stopRequested : Bool := false
  available : Bool := false
  result : Int := -1
  frame : RecvFrame_t := {}
  eventTime : Nat := 0
  deriving DecidableEq, Repr

/-- The loop test `millis() - rxStartTime < config.rxWindowMs && !shouldStop`. -/
def FrequencyListener.windowOpen (L : FrequencyListener) (rxStartTime : Nat) (p : Poll) : Bool :=
  decide (subU32 p.now rxStartTime < L.config.rxWindowMs) && !p.stopRequested

/-- The body of the `while (!shouldStop)` loop of `listenTask`, run over the
observations of its RX window.  The result is the listener and the flag
`eventReceived`; `none` when the observations end with the window still
open. -/
def FrequencyListener.listenIteration (L : FrequencyListener) (rxStartTime : Nat) :
    List Poll → Except Fault (Option (FrequencyListener × Bool))
  | [] => Except.ok none
  | p :: ps =>
    if L.windowOpen rxStartTime p then
      if p.available then
        if p.result = 0 then
          (L.handleRxDone p.eventTime p.frame).map fun L1 => some (L1, true)
        else if p.result = 1 then
          (L.handleRxError p.eventTime).map fun L1 => some (L1, true)
        else L.listenIteration rxStartTime ps
      else L.listenIteration rxStartTime ps
    else Except.ok (some (L, false))

/-! ## Activity score (`statistics.cpp`, `common.h`) -/

/-- The arithmetic of `float`: literals, conversion from integers and the
four operations, over a carrier `F`. -/
structure FloatArith (F : Type) where
  lit : ℚ → F
  ofInt : Int → F
  add : F → F → F
  sub : F → F → F
  mul : F → F → F
  div : F → F → F

/-- Exact rational arithmetic. -/
def exactArith : FloatArith ℚ :=
  { lit := fun q => q, ofInt := fun z => (z : ℚ), add := fun a b => a + b,
    sub := fun a b => a - b, mul := fun a b => a * b, div := fun a b => a / b }

/-- The Arduino macro `constrain(amt, low, high)`. -/
def constrain {F : Type} [LinearOrder F] (amt low high : F) : F :=
  if amt < low then low else if amt > high then high else amt

/-- The function `normalize` of `common.h`. -/
def normalize {F : Type} [LinearOrder F] (A : FloatArith F) (value minVal maxVal : F) : F :=
  if maxVal ≤ minVal then A.lit 0
  else constrain (A.div (A.sub value minVal) (A.sub maxVal minVal)) (A.lit 0) (A.lit 1)

/-- The function `constrain_float` of `common.h`. -/
def constrain_float {F : Type} [LinearOrder F] (value minVal maxVal : F) : F :=
  if value < minVal then minVal
  else if value > maxVal then maxVal
  else value

/-- The function `std::min`: the second argument when it is smaller. -/
def stdMin {F : Type} [LinearOrder F] (a b : F) : F := if b < a then b else a

/-- The function `std::max`: the second argument when it is larger. -/
def stdMax {F : Type} [LinearOrder F] (a b : F) : F := if a < b then b else a

/-- The weighted sum of `calculateActivityScore`, before the final clamp. -/
def activityWeightedSum {F : Type} [LinearOrder F] (A : FloatArith F)
    (stats : FrequencyStats) (now : Nat) : F :=
  let rssiScore := normalize A (A.ofInt stats.avgRssi) (A.lit (-120)) (A.lit (-50))
  let packetScore :=
    stdMin (A.lit 1) (A.div (A.ofInt stats.packetCount) (A.ofInt stats.sampleCount))
  let rssiRange := A.ofInt (stats.maxRssi - stats.minRssi)
  let stabilityScore := A.sub (A.lit 1) (normalize A rssiRange (A.lit 0) (A.lit 30))
  let age := subU32 now stats.lastSeen
  let maxAge := A.mul (A.mul (A.lit 5) (A.lit 60)) (A.lit 1000)
  let freshnessScore := stdMax (A.lit 0) (A.sub (A.lit 1) (A.div (A.ofInt age) maxAge))
  A.add
    (A.add
      (A.add (A.mul (A.lit (35 / 100)) rssiScore) (A.mul (A.lit (30 / 100)) packetScore))
      (A.mul (A.lit (20 / 100)) stabilityScore))
    (A.mul (A.lit (15 / 100)) freshnessScore)

/-- The method `StatisticsCollector::calculateActivityScore` over the
arithmetic `A`; `now` is the reading of `millis()`. -/
def calculateActivityScoreIn {F : Type} [LinearOrder F] (A : FloatArith F)
    (stats : FrequencyStats) (now : Nat) : F :=
  if stats.sampleCount = 0 then A.lit 0
  else constrain_float (activityWeightedSum A stats now) (A.lit 0) (A.lit 1)

/-- The method `StatisticsCollector::calculateActivityScore` in exact
arithmetic. -/
def calculateActivityScore (stats : FrequencyStats) (now : Nat) : ℚ :=
  calculateActivityScoreIn exactArith stats now


/-! ### `init` and `start` -/

/-- The method `FrequencyListener::init`: the listener with the new
configuration stored, and the result.  The results of `setBandwidth`,
`setSpreadingFactor` and `setCodingRate` are only logged. -/
def FrequencyListener.init (L : FrequencyListener) (cfg : ListenerConfig) :
    Except Fault (FrequencyListener × Bool) :=
  let L1 := { L with config := cfg }
  match L1.lora with
  | none => Except.ok (L1, false)
  | some a =>
    if !a.initOk then Except.ok (L1, false)
    else if L1.config.frequencies.isEmpty then Except.ok (L1, false)
    else do
      let fc ← vecAt L1.config.frequencies L1.config.currentFreqIndex
      if !L1.setFrequency fc.frequency then Except.ok (L1, false)
      else
        let _bw := a.setBandwidthOk
        let _sf := a.setSpreadingFactorOk
        let _cr := a.setCodingRateOk
        Except.ok (L1, true)

/-- The method `FrequencyListener::start`: the listener, and whether
`xTaskCreate` was called.  `task` is the handle `xTaskCreate` stores, `none`
when it creates no task. -/
def FrequencyListener.start (L : FrequencyListener) (task : Option Nat) :
    FrequencyListener × Bool :=
  if L.isListening then (L, false)
  else
    ({ L with
       isListening := true
       shouldStop := false
       listenTaskHandle :=
         match task with
         | some h => some h
         | none => L.listenTaskHandle },
     true)

/-- The method `FrequencyListener::isRunning`. -/
def FrequencyListener.isRunning (L : FrequencyListener) : Bool := L.isListening

/-! ## `StatisticsCollector` (`statistics.h`, `statistics.cpp`) -/

/-- The `ScanSample` record, with the defaults of its constructor. -/
structure ScanSample where
  frequency : Nat := 0
  rssi : Int := -120
  snr : Int := -20
  packetReceived : Bool := false
  timestamp : Nat := 0
  errorCount : Nat := 0
  deriving DecidableEq, Repr

/-- A `push_back` followed by `pop_front` when the size exceeds `cap`: the
pattern of `addSample` and of `SlidingWindow::add`. -/
def pushEvict {α : Type} (q : List α) (cap : Nat) (x : α) : List α :=
  let q1 := q ++ [x]
  if q1.length > cap then q1.tail else q1

/-- The nested `SlidingWindow`, with the default size of its constructor. -/
structure SlidingWindow where
  rssiWindow : List Int := []
  windowSize : Nat := 10
  deriving DecidableEq, Repr

/-- The method `SlidingWindow::add`. -/
def SlidingWindow.add (w : SlidingWindow) (value : Int) : SlidingWindow :=
  { w with rssiWindow := pushEvict w.rssiWindow w.windowSize value }

/-- The method `SlidingWindow::size`. -/
def SlidingWindow.size (w : SlidingWindow) : Nat := w.rssiWindow.length

/-- The method `SlidingWindow::getAverage`: the `int32_t` sum is divided by
the unsigned `size()`, so the division is that of `uint32_t`, and the
quotient is cast to `int16_t`. -/
def SlidingWindow.getAverage (w : SlidingWindow) : Int :=
  if w.rssiWindow.isEmpty then -120
  else toInt16 ((toU32 w.rssiWindow.sum / w.rssiWindow.length : Nat) : Int)

/-- The method `SlidingWindow::getMax`. -/
def SlidingWindow.getMax (w : SlidingWindow) : Int :=
  match w.rssiWindow with
  | [] => -120
  | v0 :: rest => (v0 :: rest).foldl (fun maxVal val => if val > maxVal then val else maxVal) v0

/-- The method `SlidingWindow::getMin`. -/
def SlidingWindow.getMin (w : SlidingWindow) : Int :=
  match w.rssiWindow with
  | [] => -120
  | v0 :: rest => (v0 :: rest).foldl (fun minVal val => if val < minVal then val else minVal) v0

/-- The method `std::map::find`, on a map held as its list of pairs in
iteration order. -/
def mapFind {V : Type} : List (Nat × V) → Nat → Option V
  | [], _ => none
  | (k1, v) :: rest, k => if k1 = k then some v else mapFind rest k

/-- Insertion of a new key at its place in ascending key order. -/
def mapInsert {V : Type} : List (Nat × V) → Nat → V → List (Nat × V)
  | [], k, v => [(k, v)]
  | (k1, v1) :: rest, k, v =>
    if k < k1 then (k, v) :: (k1, v1) :: rest else (k1, v1) :: mapInsert rest k v

/-- The method `std::map::operator[]` followed by an update `f` of the
referenced value: an absent key is first inserted with the default `dflt`. -/
def mapAt {V : Type} (m : List (Nat × V)) (k : Nat) (dflt : V) (f : V → V) :
    List (Nat × V) :=
  match mapFind m k with
  | some _ => m.map fun p => if p.1 = k then (p.1, f p.2) else p
  | none => mapInsert m k (f dflt)

/-- The method `std::map::erase` by key. -/
def mapErase {V : Type} (m : List (Nat × V)) (k : Nat) : List (Nat × V) :=
  m.filter fun p => p.1 ≠ k

/-- The state of a `StatisticsCollector`; `maxRecentSamples` is the constant
100. -/
structure StatisticsCollector where
  freqStatsMap : List (Nat × FrequencyStats) := []
  recentSamples : List ScanSample := []
  rssiWindows : List (Nat × SlidingWindow) := []
  deriving DecidableEq, Repr

/-- The constant member `maxRecentSamples`. -/
def maxRecentSamples : Nat := 100

/-- The update `addSample` makes to the entry of the sample's frequency;
the two counters are `uint16_t`. -/
def addToStats (sample : ScanSample) (stats : FrequencyStats) : FrequencyStats :=
  let stats1 := if stats.frequency = 0 then { stats with frequency := sample.frequency } else stats
  let stats2 :=
    { stats1 with sampleCount := (stats1.sampleCount + 1) % 65536, lastSeen := sample.timestamp }
  if sample.packetReceived then { stats2 with packetCount := (stats2.packetCount + 1) % 65536 }
  else stats2

/-- The method `StatisticsCollector::addSample`. -/
def StatisticsCollector.addSample (C : StatisticsCollector) (sample : ScanSample) :
    StatisticsCollector :=
  { recentSamples := pushEvict C.recentSamples maxRecentSamples sample
    freqStatsMap := mapAt C.freqStatsMap sample.frequency {} (addToStats sample)
    rssiWindows := mapAt C.rssiWindows sample.frequency {} fun w => w.add sample.rssi }

/-- The body of the loop of `updateStatistics` for one entry, given its
window; `now` is the reading of `millis()` in `calculateActivityScore`. -/
def updateEntry (window : SlidingWindow) (stats : FrequencyStats) (now : Nat) :
    FrequencyStats :=
  let stats1 :=
    if window.size > 0 then
      { stats with
        avgRssi := window.getAverage, maxRssi := window.getMax, minRssi := window.getMin }
    else stats
  { stats1 with activityScore := calculateActivityScore stats1 now }

/-- The method `StatisticsCollector::updateStatistics`; `now k` is the clock
reading when the score of frequency `k` is computed.  The lookup
`rssiWindows[k]` inserts an empty window for a key that has none. -/
def StatisticsCollector.updateStatistics (C : StatisticsCollector) (now : Nat → Nat) :
    StatisticsCollector :=
  { C with
    freqStatsMap := C.freqStatsMap.map fun p =>
      (p.1, updateEntry ((mapFind C.rssiWindows p.1).getD {}) p.2 (now p.1))
    rssiWindows := C.freqStatsMap.foldl (fun ws p => mapAt ws p.1 {} id) C.rssiWindows }

/-- The method `StatisticsCollector::getStats`; `none` is the null pointer. -/
def StatisticsCollector.getStats (C : StatisticsCollector) (frequency : Nat) :
    Option FrequencyStats :=
  mapFind C.freqStatsMap frequency

/-- The contract of `std::sort` with the comparator of `getAllStats`,
`a.activityScore > b.activityScore`: the result is a rearrangement of the
input in which no later element compares before an earlier one. -/
def SortsByScore (sort : List FrequencyStats → List FrequencyStats) : Prop :=
  ∀ l, (sort l).Perm l ∧
    (sort l).Pairwise fun a b => ¬ (b.activityScore > a.activityScore)

/-- The method `StatisticsCollector::getAllStats`, over the library's
`std::sort`. -/
def StatisticsCollector.getAllStats (sort : List FrequencyStats → List FrequencyStats)
    (C : StatisticsCollector) : List FrequencyStats :=
  sort (C.freqStatsMap.map Prod.snd)

/-- The order the comparator of `getAllStats` asks for: `a` may stand
before `b`. -/
def scoreGE (a b : FrequencyStats) : Prop := b.activityScore ≤ a.activityScore

instance scoreGE_decidable : DecidableRel scoreGE :=
  fun a b => inferInstanceAs (Decidable (b.activityScore ≤ a.activityScore))

instance scoreGE_total : IsTotal FrequencyStats scoreGE :=
  ⟨fun a b => le_total b.activityScore a.activityScore⟩

instance scoreGE_trans : IsTrans FrequencyStats scoreGE :=
  ⟨fun _ _ _ hab hbc => le_trans hbc hab⟩

/-- A sort meeting the contract of `std::sort` that keeps entries of equal
score in their input order. -/
def sortKeepingTies (l : List FrequencyStats) : List FrequencyStats :=
  l.insertionSort scoreGE

/-- A sort meeting the contract of `std::sort` that puts entries of equal
score in the reverse of their input order. -/
def sortReversingTies (l : List FrequencyStats) : List FrequencyStats :=
  l.reverse.insertionSort scoreGE

/-- The first loop of `cleanup`, over the entries from the iterator on:
the entries kept, and the windows after the erasures. -/
def cleanupStats (maxAgeMs currentTime : Nat) :
    List (Nat × FrequencyStats) → List (Nat × SlidingWindow) →
      List (Nat × FrequencyStats) × List (Nat × SlidingWindow)
  | [], ws => ([], ws)
  | p :: rest, ws =>
    if subU32 currentTime p.2.lastSeen > maxAgeMs then
      cleanupStats maxAgeMs currentTime rest (mapErase ws p.1)
    else
      let r := cleanupStats maxAgeMs currentTime rest ws
      (p :: r.1, r.2)

/-- The second loop of `cleanup`, over the recent samples. -/
def cleanupSamples (maxAgeMs currentTime : Nat) : List ScanSample → List ScanSample
  | [] => []
  | s :: rest =>
    if subU32 currentTime s.timestamp > maxAgeMs then cleanupSamples maxAgeMs currentTime rest
    else s :: cleanupSamples maxAgeMs currentTime rest

/-- The method `StatisticsCollector::cleanup`; `currentTime` is the reading
of `millis()`. -/
def StatisticsCollector.cleanup (C : StatisticsCollector) (maxAgeMs currentTime : Nat) :
    StatisticsCollector :=
  let r := cleanupStats maxAgeMs currentTime C.freqStatsMap C.rssiWindows
  { freqStatsMap := r.1
    rssiWindows := r.2
    recentSamples := cleanupSamples maxAgeMs currentTime C.recentSamples }

/-- The method `StatisticsCollector::clear`. -/
def StatisticsCollector.clear (_C : StatisticsCollector) : StatisticsCollector :=
  { freqStatsMap := [], recentSamples := [], rssiWindows := [] }

/-- The method `StatisticsCollector::getRecentSampleCount`. -/
def StatisticsCollector.getRecentSampleCount (C : StatisticsCollector) : Nat :=
  C.recentSamples.length

/-- The method `StatisticsCollector::getFrequencyCount`. -/
def StatisticsCollector.getFrequencyCount (C : StatisticsCollector) : Nat :=
  C.freqStatsMap.length

/-! ### Sequences of calls on the collector -/

/-- A mutating call on the collector. -/
inductive CollectorOp where
  | addSample (sample : ScanSample)
  | updateStatistics (now : Nat → Nat)
  | cleanup (maxAgeMs currentTime : Nat)
  | clear

/-- Make one call on the collector. -/
def StatisticsCollector.call (C : StatisticsCollector) : CollectorOp → StatisticsCollector
  | CollectorOp.addSample s => C.addSample s
  | CollectorOp.updateStatistics now => C.updateStatistics now
  | CollectorOp.cleanup maxAgeMs currentTime => C.cleanup maxAgeMs currentTime
  | CollectorOp.clear => C.clear

/-- Make a sequence of calls, first to last. -/
def StatisticsCollector.run (C : StatisticsCollector) (ops : List CollectorOp) :
    StatisticsCollector :=
  ops.foldl StatisticsCollector.call C

/-- Add a sequence of samples, first to last. -/
def StatisticsCollector.addSamples (C : StatisticsCollector) (samples : List ScanSample) :
    StatisticsCollector :=
  samples.foldl StatisticsCollector.addSample C

/-- The effect of one call on whether frequency `f` is tracked, and since
which sample: a sample of `f` starts tracking at its timestamp, `cleanup`
evicts `f` when that timestamp is older than `maxAgeMs`, `clear` drops it. -/
def trackStep (f : Nat) (t : Option Nat) : CollectorOp → Option Nat
  | CollectorOp.addSample s => if s.frequency = f then some s.timestamp else t
  | CollectorOp.updateStatistics _ => t
  | CollectorOp.cleanup maxAgeMs currentTime =>
    t.filter fun ts => !decide (subU32 currentTime ts > maxAgeMs)
  | CollectorOp.clear => none

/-- The timestamp of the latest sample of `f`, if `f` was sampled since the
collector was created or last cleared and not evicted by `cleanup` since
that sample; `none` otherwise. -/
def trackedSince (f : Nat) (ops : List CollectorOp) : Option Nat :=
  ops.foldl (trackStep f) none

/-- The samples of frequency `f`, in arrival order. -/
def samplesOf (f : Nat) (samples : List ScanSample) : List ScanSample :=
  samples.filter fun s => s.frequency = f

/-- The RSSI values of the samples of frequency `f`, in arrival order. -/
def rssiOf (f : Nat) (samples : List ScanSample) : List Int :=
  (samples.filter fun s => s.frequency = f).map fun s => s.rssi

/-- The shape the two maps of a collector keep: the keys of the
per-frequency map ascend, a frequency has an entry exactly when it has a
window, and every window has size 10 and holds 1 to 10 values. -/
def StatisticsCollector.WindowsMatch (C : StatisticsCollector) : Prop :=
  (C.freqStatsMap.Pairwise fun a b => a.1 < b.1) ∧
    (∀ f, mapFind C.freqStatsMap f = none ↔ mapFind C.rssiWindows f = none) ∧
    ∀ q ∈ C.rssiWindows,
      q.2.windowSize = 10 ∧ 1 ≤ q.2.rssiWindow.length ∧ q.2.rssiWindow.length ≤ 10

/-! ## Configuration (`config.h`, `config_user.h`) -/

/-- The `LoRaScopeConfig` record, with the defaults of its constructor. -/
structure LoRaScopeConfig where
  startFreqHz : Nat := 410125000
  endFreqHz : Nat := 493125000
  freqStepHz : Nat := 1000000
  rxWindowMs : Nat := 1000
  bandwidth : Nat := 125
  spreadingFactor : Nat := 7
  codingRate : Nat := 5
  maxPoints : Nat := 100
  deriving DecidableEq, Repr

/-- The entry `getFrequencies` pushes for the frequency `freq`: the
constructor call `FrequencyConfig(freq, rxWindowMs, bandwidth,
spreadingFactor, codingRate)`. -/
def LoRaScopeConfig.entry (c : LoRaScopeConfig) (freq : Nat) : FrequencyConfig :=
  { frequency := freq, dwellTime := c.rxWindowMs % 65536, bandwidth := c.bandwidth,
    spreadingFactor := c.spreadingFactor, codingRate := c.codingRate }

/-- The loop `while (freq <= endFreqHz)` of `getFrequencies`, with `freqs`
the vector so far and `freq += freqStepHz` in `uint32_t`; `none` when the
loop has not ended after `fuel` tests. -/
def LoRaScopeConfig.getFrequenciesLoop (c : LoRaScopeConfig) :
    Nat → Nat → List FrequencyConfig → Option (List FrequencyConfig)
  | 0, _, _ => none
  | fuel + 1, freq, freqs =>
    if freq ≤ c.endFreqHz then
      c.getFrequenciesLoop fuel ((freq + c.freqStepHz) % 4294967296) (freqs ++ [c.entry freq])
    else some freqs

/-- The method `LoRaScopeConfig::getFrequencies`, run for at most `fuel`
loop tests. -/
def LoRaScopeConfig.getFrequencies (c : LoRaScopeConfig) (fuel : Nat) :
    Option (List FrequencyConfig) :=
  c.getFrequenciesLoop fuel c.startFreqHz []

/-- The function `getUserConfig` of `config_user.h`. -/
def getUserConfig : LoRaScopeConfig :=
  { startFreqHz := 410125000, endFreqHz := 493125000, freqStepHz := 100000,
    rxWindowMs := 1000, bandwidth := 125, spreadingFactor := 9, codingRate := 5,
    maxPoints := 100 }

/-- The arithmetic progression of a range: `n` entries from `startFreqHz` in
steps of `freqStepHz`. -/
def LoRaScopeConfig.progression (c : LoRaScopeConfig) (n : Nat) : List FrequencyConfig :=
  (List.range n).map fun k => c.entry (c.startFreqHz + k * c.freqStepHz)

/-- An arithmetic whose operations are monotone the way rounded
floating-point operations are: conversion from integers, subtraction and
addition in the first operand, division by a positive divisor,
multiplication by a non-negative factor; and whose literals 0 and 1 and
differences keep their order. -/
structure MonotoneArith {F : Type} [LinearOrder F] (A : FloatArith F) : Prop where
  zero_le_one : A.lit 0 ≤ A.lit 1
  ofInt_mono : ∀ x y : Int, x ≤ y → A.ofInt x ≤ A.ofInt y
  sub_mono : ∀ a b c : F, a ≤ b → A.sub a c ≤ A.sub b c
  sub_pos : ∀ a b : F, a < b → A.lit 0 < A.sub b a
  div_mono : ∀ a b c : F, A.lit 0 < c → a ≤ b → A.div a c ≤ A.div b c
  mul_mono : ∀ a b : F, a ≤ b → A.mul (A.lit (35 / 100)) a ≤ A.mul (A.lit (35 / 100)) b
  add_mono : ∀ a b c : F, a ≤ b → A.add a c ≤ A.add b c

/-! ## Sample inputs -/

/-- A listener over 433.0, 434.0 and 435.0 MHz with `maxPoints = 2`, empty
history and cleared statistics. -/
def scenarioListener : FrequencyListener :=
  { config :=
      { frequencies :=
          [{ frequency := 433000000 }, { frequency := 434000000 }, { frequency := 435000000 }]
        maxPoints := 2 } }

/-- RxDone at -70, -60 and -90 dBm on the three frequencies in turn. -/
def scenarioOps : List ListenerOp :=
  [ListenerOp.rxDone 10 { rssi := -70 }, ListenerOp.nextFrequency,
   ListenerOp.rxDone 20 { rssi := -60 }, ListenerOp.nextFrequency,
   ListenerOp.rxDone 30 { rssi := -90 }]

/-- RxDone at -70, -60 and -90 dBm on one frequency. -/
def threeRxDone : List ListenerOp :=
  [ListenerOp.rxDone 10 { rssi := -70 }, ListenerOp.rxDone 20 { rssi := -60 },
   ListenerOp.rxDone 30 { rssi := -90 }]

/-- A listener over 65537 frequencies with the cursor on the first. -/
def wideListenerFirst : FrequencyListener :=
  { config := { frequencies := List.replicate 65537 {}, currentFreqIndex := 0 } }

/-- A listener over 65537 frequencies with the cursor on index 65535. -/
def wideListenerHigh : FrequencyListener :=
  { config := { frequencies := List.replicate 65537 {}, currentFreqIndex := 65535 } }

/-- The scenario listener with an RX window of 0 ms. -/
def zeroWindowListener : FrequencyListener :=
  { scenarioListener with config := { scenarioListener.config with rxWindowMs := 0 } }

/-- A poll that finds a good frame at -70 dBm waiting. -/
def framePoll : Poll :=
  { now := 0, available := true, result := 0, frame := { rssi := -70 }, eventTime := 1 }

/-- A frequency sampled three times, twice with a packet, 30 s ago at clock
reading 31000. -/
def sampleStats : FrequencyStats :=
  { frequency := 433000000, sampleCount := 3, avgRssi := -70, maxRssi := -60,
    minRssi := -90, packetCount := 2, lastSeen := 1000 }

/-- Fifteen samples of 433.0 MHz with RSSI -100, -99, ..., -86. -/
def risingSamples : List ScanSample :=
  (List.range 15).map fun (i : Nat) =>
    { frequency := 433000000, rssi := -100 + Int.ofNat i, timestamp := i }

/-- Ten samples of 433.0 MHz at -90 dBm. -/
def tenSamples : List ScanSample :=
  List.replicate 10 { frequency := 433000000, rssi := -90, timestamp := 5 }

/-- Samples of 434.0, 433.0, 435.0 and again 433.0 MHz, the second and the
last with a packet. -/
def mixedSamples : List ScanSample :=
  [{ frequency := 434000000, rssi := -90, timestamp := 5 },
   { frequency := 433000000, rssi := -80, timestamp := 6, packetReceived := true },
   { frequency := 435000000, rssi := -70, timestamp := 7 },
   { frequency := 433000000, rssi := -60, timestamp := 9, packetReceived := true }]

/-- One sample each of 433.0 and 434.0 MHz, alike in all but frequency. -/
def twinSamples : List ScanSample :=
  [{ frequency := 433000000, rssi := -80, timestamp := 6 },
   { frequency := 434000000, rssi := -80, timestamp := 6 }]

/-- The collector after the twin samples and `updateStatistics` at clock
reading 20: two tracked frequencies with equal scores. -/
def tiedCollector : StatisticsCollector :=
  (({} : StatisticsCollector).addSamples twinSamples).updateStatistics fun _ => 20

/-- The collector after the mixed samples and `updateStatistics` at clock
reading 20. -/
def mixedCollector : StatisticsCollector :=
  (({} : StatisticsCollector).addSamples mixedSamples).updateStatistics fun _ => 20

/-- A fresh listener whose adapter initialises but refuses to tune. -/
def untunedListener : FrequencyListener :=
  { lora := some { setFrequencyOk := false } }

/-- A fresh listener whose adapter fails to initialise. -/
def deadAdapterListener : FrequencyListener :=
  { lora := some { initOk := false } }

/-- A fresh listener whose adapter answers every call with success except
`setBandwidth`, `setSpreadingFactor` and `setCodingRate`. -/
def looseAdapterListener : FrequencyListener :=
  { lora := some { setBandwidthOk := false, setSpreadingFactorOk := false,
                   setCodingRateOk := false } }

/-- The collector after the mixed samples: 433.0 MHz last seen at 9,
434.0 MHz at 5, 435.0 MHz at 7. -/
def agedCollector : StatisticsCollector :=
  ({} : StatisticsCollector).addSamples mixedSamples

/-- A listener over the 831 frequencies of the user configuration, with
the cursor on the first. -/
def userListener : FrequencyListener :=
  { config :=
      { frequencies := getUserConfig.progression 831
        currentFreqIndex := 0
        rxWindowMs := getUserConfig.rxWindowMs
        bandwidth := getUserConfig.bandwidth
        spreadingFactor := getUserConfig.spreadingFactor
        codingRate := getUserConfig.codingRate
        maxPoints := getUserConfig.maxPoints } }

/-- A configuration of three frequencies: 433.0 to 435.0 MHz in steps of
1 MHz. -/
def threeStepConfig : LoRaScopeConfig :=
  { startFreqHz := 433000000, endFreqHz := 435000000, freqStepHz := 1000000 }

/-- The scenario listener while running. -/
def runningListener : FrequencyListener :=
  { scenarioListener with isListening := true, listenTaskHandle := some 1 }

/-- A frequency at full score at clock reading 1000: strong signal, a packet
with every sample, no spread, seen just now. -/
def perfectStats : FrequencyStats :=
  { frequency := 433000000, sampleCount := 3, avgRssi := -50, maxRssi := -50,
    minRssi := -50, packetCount := 3, lastSeen := 1000 }

/-! ## Lemmas on the listener operations -/

theorem pushPoint_length_le (pts : List RadarPoint) (mp : Nat) (p : RadarPoint)
    (h : pts.length ≤ mp) : (pushPoint pts mp p).length ≤ mp := by
  unfold pushPoint
  simp only [List.length_append, List.length_singleton]
  split
  · simp [List.length_tail]; omega
  · simp only [List.length_append, List.length_singleton]; omega

theorem avgUpdate_ok (a : Int) (t : Nat) (r : Int) (ht : t ≠ 0) :
    ∃ v, avgUpdate a t r = Except.ok v := by
  unfold avgUpdate
  simp [ht]

theorem avgUpdate_not_index (a : Int) (t : Nat) (r : Int) :
    avgUpdate a t r ≠ Except.error Fault.indexOutOfRange := by
  unfold avgUpdate
  split <;> simp

theorem handleRxDone_cases (L L1 : FrequencyListener) (now : Nat) (f : RecvFrame_t)
    (h : L.handleRxDone now f = Except.ok L1) :
    (L1 = L ∧ (toInt16 f.rssi < -120 ∨ toInt16 f.rssi > -50)) ∨
      ∃ fc avg, L.config.frequencies[L.config.currentFreqIndex]? = some fc ∧
        ¬ (toInt16 f.rssi < -120 ∨ toInt16 f.rssi > -50) ∧
        avgUpdate L.eventStats.avgRssi ((L.eventStats.totalEvents + 1) % 4294967296)
          (toInt16 f.rssi) = Except.ok avg ∧
        L1.config = L.config ∧
        L1.radarPoints = pushPoint L.radarPoints L.config.maxPoints
          (rxDonePoint now fc.frequency (toInt16 f.rssi) f.recv_data_len) ∧
        L1.eventStats.totalEvents = (L.eventStats.totalEvents + 1) % 4294967296 ∧
        L1.eventStats.rxDoneCount = (L.eventStats.rxDoneCount + 1) % 4294967296 ∧
        L1.eventStats.rxErrorCount = L.eventStats.rxErrorCount ∧
        L1.eventStats.avgRssi = avg := by
  unfold FrequencyListener.handleRxDone at h
  simp only at h
  split at h
  · rename_i hr
    left; injection h with h; exact ⟨h.symm, hr⟩
  · rename_i hr
    right
    unfold vecAt at h
    cases hfc : L.config.frequencies[L.config.currentFreqIndex]? with
    | none => simp [hfc, bind, Except.bind] at h
    | some fc =>
      simp only [hfc, bind, Except.bind] at h
      cases havg : avgUpdate L.eventStats.avgRssi ((L.eventStats.totalEvents + 1) % 4294967296)
          (rxDonePoint now fc.frequency (toInt16 f.rssi) f.recv_data_len).rssi with
      | error e => simp [havg] at h
      | ok avg =>
        simp only [havg] at h
        injection h with h
        subst h
        exact ⟨fc, avg, rfl, hr, havg, rfl, rfl, rfl, rfl, rfl, rfl⟩

theorem handleRxDone_defined (L : FrequencyListener) (now : Nat) (f : RecvFrame_t)
    (hb : L.config.currentFreqIndex < L.config.frequencies.length) :
    (∃ L1, L.handleRxDone now f = Except.ok L1) ∨
      (L.handleRxDone now f = Except.error Fault.divideByZero ∧
        (L.eventStats.totalEvents + 1) % 4294967296 = 0) := by
  unfold FrequencyListener.handleRxDone
  simp only
  split
  · exact Or.inl ⟨L, rfl⟩
  · unfold vecAt
    rw [List.getElem?_eq_getElem hb]
    simp only [bind, Except.bind]
    unfold avgUpdate
    by_cases ht : (L.eventStats.totalEvents + 1) % 4294967296 = 0
    · right; simp [ht]
    · left; simp [ht]

theorem handleRxError_cases (L L1 : FrequencyListener) (now : Nat)
    (h : L.handleRxError now = Except.ok L1) :
    ∃ fc, L.config.frequencies[L.config.currentFreqIndex]? = some fc ∧
      L1.config = L.config ∧
      L1.radarPoints = pushPoint L.radarPoints L.config.maxPoints
        (rxErrorPoint now fc.frequency) ∧
      L1.eventStats.totalEvents = (L.eventStats.totalEvents + 1) % 4294967296 ∧
      L1.eventStats.rxDoneCount = L.eventStats.rxDoneCount ∧
      L1.eventStats.rxErrorCount = (L.eventStats.rxErrorCount + 1) % 4294967296 ∧
      L1.eventStats.avgRssi = L.eventStats.avgRssi ∧
      L1.eventStats.minRssi = L.eventStats.minRssi ∧
      L1.eventStats.maxRssi = L.eventStats.maxRssi := by
  unfold FrequencyListener.handleRxError vecAt at h
  cases hfc : L.config.frequencies[L.config.currentFreqIndex]? with
  | none => simp [hfc, bind, Except.bind] at h
  | some fc =>
    simp only [hfc, bind, Except.bind] at h
    injection h with h
    subst h
    exact ⟨fc, rfl, rfl, rfl, rfl, rfl, rfl, rfl, rfl, rfl⟩

theorem handleRxError_defined (L : FrequencyListener) (now : Nat)
    (hb : L.config.currentFreqIndex < L.config.frequencies.length) :
    ∃ L1, L.handleRxError now = Except.ok L1 := by
  unfold FrequencyListener.handleRxError vecAt
  rw [List.getElem?_eq_getElem hb]
  simp [bind, Except.bind]

theorem retune_cases (L L1 : FrequencyListener) (idx : Nat)
    (h : L.retune idx = Except.ok L1) :
    idx < L.config.frequencies.length ∧
      L1.config = { L.config with currentFreqIndex := idx } ∧
      L1.radarPoints = L.radarPoints ∧ L1.eventStats = L.eventStats := by
  unfold FrequencyListener.retune vecAt at h
  cases hfc : L.config.frequencies[idx]? with
  | none => simp [hfc, bind, Except.bind] at h
  | some fc =>
    simp only [hfc, bind, Except.bind] at h
    injection h with h
    subst h
    have hlt : idx < L.config.frequencies.length := by
      by_contra hge
      rw [List.getElem?_eq_none (by omega)] at hfc
      cases hfc
    exact ⟨hlt, rfl, rfl, rfl⟩

theorem retune_defined (L : FrequencyListener) (idx : Nat)
    (hb : idx < L.config.frequencies.length) : ∃ L1, L.retune idx = Except.ok L1 := by
  unfold FrequencyListener.retune vecAt
  rw [List.getElem?_eq_getElem hb]
  simp [bind, Except.bind]

theorem nextIndex_lt (i n : Nat) (hn : 0 < n) : ((i + 1) % n) % 65536 < n :=
  lt_of_le_of_lt (Nat.mod_le _ _) (Nat.mod_lt _ hn)

theorem prevIndex_lt (i n : Nat) (hi : i < n) :
    (if i = 0 then n - 1 else i - 1) % 65536 < n := by
  refine lt_of_le_of_lt (Nat.mod_le _ _) ?_
  split <;> omega


/-- What a successful call can do to the configuration, the history and the
event counts. -/
theorem call_effect (L L1 : FrequencyListener) (op : ListenerOp)
    (h : L.call op = Except.ok L1) :
    L1.config.frequencies = L.config.frequencies ∧
      L1.config.maxPoints = L.config.maxPoints ∧
      (L.config.currentFreqIndex < L.config.frequencies.length →
        L1.config.currentFreqIndex < L.config.frequencies.length) ∧
      (L1.radarPoints = L.radarPoints ∨ L1.radarPoints = [] ∨
        ∃ p, L1.radarPoints = pushPoint L.radarPoints L.config.maxPoints p) ∧
      L1.eventStats.totalEvents ≤ L.eventStats.totalEvents + 1 := by
  cases op with
  | rxDone now f =>
    rcases handleRxDone_cases L L1 now f h with ⟨rfl, _⟩ | ⟨fc, avg, _, _, _, hc, hp, ht, _⟩
    · exact ⟨rfl, rfl, id, Or.inl rfl, Nat.le_succ _⟩
    · refine ⟨by rw [hc], by rw [hc], by rw [hc]; exact id, Or.inr (Or.inr ⟨_, hp⟩), ?_⟩
      rw [ht]; exact Nat.mod_le _ _
  | rxError now =>
    obtain ⟨fc, _, hc, hp, ht, _⟩ := handleRxError_cases L L1 now h
    refine ⟨by rw [hc], by rw [hc], by rw [hc]; exact id, Or.inr (Or.inr ⟨_, hp⟩), ?_⟩
    rw [ht]; exact Nat.mod_le _ _
  | clearRadarPoints =>
    injection h with h; subst h
    exact ⟨rfl, rfl, id, Or.inr (Or.inl rfl), Nat.le_succ _⟩
  | clearEventStats =>
    injection h with h; subst h
    exact ⟨rfl, rfl, id, Or.inl rfl, Nat.zero_le _⟩
  | nextFrequency =>
    simp only [FrequencyListener.call, FrequencyListener.nextFrequency] at h
    split at h
    · injection h with h; subst h
      exact ⟨rfl, rfl, id, Or.inl rfl, Nat.le_succ _⟩
    · obtain ⟨hlt, hc, hp, hs⟩ := retune_cases L L1 _ h
      refine ⟨by rw [hc], by rw [hc], fun _ => by rw [hc]; exact hlt, Or.inl hp, ?_⟩
      rw [hs]; exact Nat.le_succ _
  | prevFrequency =>
    simp only [FrequencyListener.call, FrequencyListener.prevFrequency] at h
    split at h
    · injection h with h; subst h
      exact ⟨rfl, rfl, id, Or.inl rfl, Nat.le_succ _⟩
    · obtain ⟨hlt, hc, hp, hs⟩ := retune_cases L L1 _ h
      refine ⟨by rw [hc], by rw [hc], fun _ => by rw [hc]; exact hlt, Or.inl hp, ?_⟩
      rw [hs]; exact Nat.le_succ _

/-- With the cursor in range a call either succeeds or divides by zero, the
latter only when `totalEvents` wraps to 0. -/
theorem call_defined (L : FrequencyListener) (op : ListenerOp)
    (hb : L.config.currentFreqIndex < L.config.frequencies.length) :
    (∃ L1, L.call op = Except.ok L1) ∨
      (L.call op = Except.error Fault.divideByZero ∧
        (L.eventStats.totalEvents + 1) % 4294967296 = 0) := by
  have hne : L.config.frequencies.isEmpty = false := by
    cases hfs : L.config.frequencies with
    | nil => rw [hfs] at hb; simp at hb
    | cons a t => rfl
  cases op with
  | rxDone now f => exact handleRxDone_defined L now f hb
  | rxError now => exact Or.inl (handleRxError_defined L now hb)
  | clearRadarPoints => exact Or.inl ⟨_, rfl⟩
  | clearEventStats => exact Or.inl ⟨_, rfl⟩
  | nextFrequency =>
    left
    simp only [FrequencyListener.call, FrequencyListener.nextFrequency, hne]
    exact retune_defined L _ (nextIndex_lt _ _ (by omega))
  | prevFrequency =>
    left
    simp only [FrequencyListener.call, FrequencyListener.prevFrequency, hne]
    exact retune_defined L _ (prevIndex_lt _ _ hb)

/-- A property kept by every successful call is kept by every successful
sequence of calls. -/
theorem run_invariant (P : FrequencyListener → Prop)
    (hstep : ∀ M M1 op, P M → M.call op = Except.ok M1 → P M1) :
    ∀ (ops : List ListenerOp) (L L1 : FrequencyListener),
      P L → L.run ops = Except.ok L1 → P L1 := by
  intro ops
  induction ops with
  | nil =>
    intro L L1 hP h
    injection h with h
    subst h; exact hP
  | cons op ops ih =>
    intro L L1 hP h
    simp only [FrequencyListener.run] at h
    cases hc : L.call op with
    | error e => rw [hc] at h; cases h
    | ok M =>
      rw [hc] at h
      exact ih M L1 (hstep L M op hP hc) h

/-- A sequence of calls made with the cursor in range, too short for
`totalEvents` to wrap, runs to completion. -/
theorem run_defined : ∀ (ops : List ListenerOp) (L : FrequencyListener),
    L.config.currentFreqIndex < L.config.frequencies.length →
    L.eventStats.totalEvents + ops.length < 4294967296 →
    ∃ L1, L.run ops = Except.ok L1 := by
  intro ops
  induction ops with
  | nil => intro L _ _; exact ⟨L, rfl⟩
  | cons op ops ih =>
    intro L hb hn
    simp only [List.length_cons] at hn
    rcases call_defined L op hb with ⟨M, hM⟩ | ⟨_, hz⟩
    · obtain ⟨hf, _, hcur, _, ht⟩ := call_effect L M op hM
      have hb1 : M.config.currentFreqIndex < M.config.frequencies.length := by
        rw [hf]; exact hcur hb
      obtain ⟨L1, h1⟩ := ih M hb1 (by omega)
      exact ⟨L1, by simp only [FrequencyListener.run, hM]; exact h1⟩
    · omega

/-- With the cursor in range no sequence of calls makes an out-of-range
lookup. -/
theorem run_no_index_fault : ∀ (ops : List ListenerOp) (L : FrequencyListener),
    L.config.currentFreqIndex < L.config.frequencies.length →
    L.run ops ≠ Except.error Fault.indexOutOfRange := by
  intro ops
  induction ops with
  | nil => intro L _ h; cases h
  | cons op ops ih =>
    intro L hb
    simp only [FrequencyListener.run]
    rcases call_defined L op hb with ⟨M, hM⟩ | ⟨hz, _⟩
    · obtain ⟨hf, _, hcur, _, _⟩ := call_effect L M op hM
      rw [hM]
      exact ih M (by rw [hf]; exact hcur hb)
    · rw [hz]; intro h; cases h


theorem pushPoint_lastN (H : List RadarPoint) (mp : Nat) (p : RadarPoint) :
    pushPoint (lastN mp H) mp p = lastN mp (H ++ [p]) := by
  unfold pushPoint lastN
  simp only [List.length_append, List.length_singleton, List.length_drop]
  by_cases hlt : H.length < mp
  · have h0 : H.length - mp = 0 := by omega
    have h1 : H.length + 1 - mp = 0 := by omega
    rw [h0, h1]
    simp only [List.drop_zero, Nat.sub_zero]
    rw [if_neg (by omega)]
  · have hk : H.length - mp ≤ H.length := Nat.sub_le _ _
    rw [if_pos (by omega)]
    rw [← List.drop_append_of_le_length hk, ← List.drop_one, List.drop_drop]
    congr 1
    omega

/-- The history after a successful call other than `clearRadarPoints` is the
old history with the recorded points pushed. -/
theorem call_history (L M : FrequencyListener) (op : ListenerOp)
    (hnc : op ≠ ListenerOp.clearRadarPoints) (h : L.call op = Except.ok M) :
    M.radarPoints =
      (L.recordedBy op).foldl (fun pts p => pushPoint pts L.config.maxPoints p) L.radarPoints := by
  cases op with
  | rxDone now f =>
    rcases handleRxDone_cases L M now f h with ⟨rfl, hr⟩ | ⟨fc, avg, hfc, hr, _, _, hp, _⟩
    · simp [FrequencyListener.recordedBy, hr]
    · simp [FrequencyListener.recordedBy, hr, hfc, hp, rxDonePoint]
  | rxError now =>
    obtain ⟨fc, hfc, _, hp, _⟩ := handleRxError_cases L M now h
    simp [FrequencyListener.recordedBy, hfc, hp, rxErrorPoint]
  | clearRadarPoints => exact absurd rfl hnc
  | clearEventStats =>
    injection h with h; subst h; rfl
  | nextFrequency =>
    simp only [FrequencyListener.call, FrequencyListener.nextFrequency] at h
    split at h
    · injection h with h; subst h; rfl
    · exact (retune_cases L M _ h).2.2.1
  | prevFrequency =>
    simp only [FrequencyListener.call, FrequencyListener.prevFrequency] at h
    split at h
    · injection h with h; subst h; rfl
    · exact (retune_cases L M _ h).2.2.1

theorem foldl_pushPoint_lastN (mp : Nat) (ps H : List RadarPoint) :
    ps.foldl (fun pts p => pushPoint pts mp p) (lastN mp H) = lastN mp (H ++ ps) := by
  induction ps generalizing H with
  | nil => simp
  | cons p ps ih =>
    simp only [List.foldl_cons]
    rw [pushPoint_lastN, ih]
    simp

/-- Without `clearRadarPoints`, the history is the last `maxPoints` of what
was there followed by what the calls recorded. -/
theorem run_history : ∀ (ops : List ListenerOp) (L L1 : FrequencyListener)
    (H : List RadarPoint),
    L.radarPoints = lastN L.config.maxPoints H →
    ListenerOp.clearRadarPoints ∉ ops →
    L.run ops = Except.ok L1 →
    L1.radarPoints = lastN L.config.maxPoints (H ++ L.recordedPoints ops) := by
  intro ops
  induction ops with
  | nil =>
    intro L L1 H hH _ h
    injection h with h
    subst h
    simpa [FrequencyListener.recordedPoints] using hH
  | cons op ops ih =>
    intro L L1 H hH hnc h
    simp only [List.mem_cons, not_or] at hnc
    simp only [FrequencyListener.run] at h
    cases hc : L.call op with
    | error e => rw [hc] at h; cases h
    | ok M =>
      rw [hc] at h
      have hM := call_history L M op (fun e => hnc.1 e.symm) hc
      rw [hH, foldl_pushPoint_lastN] at hM
      have hmp := (call_effect L M op hc).2.1
      have := ih M L1 (H ++ L.recordedBy op) (by rw [hmp]; exact hM) hnc.2 h
      rw [hmp] at this
      simp only [FrequencyListener.recordedPoints, hc]
      rw [this, List.append_assoc]


theorem call_stats (L M : FrequencyListener) (op : ListenerOp)
    (h : L.call op = Except.ok M) :
    M.eventStats = L.eventStats ∨ M.eventStats = {} ∨
      (M.eventStats.totalEvents = (L.eventStats.totalEvents + 1) % 4294967296 ∧
        M.eventStats.rxDoneCount = (L.eventStats.rxDoneCount + 1) % 4294967296 ∧
        M.eventStats.rxErrorCount = L.eventStats.rxErrorCount) ∨
      (M.eventStats.totalEvents = (L.eventStats.totalEvents + 1) % 4294967296 ∧
        M.eventStats.rxDoneCount = L.eventStats.rxDoneCount ∧
        M.eventStats.rxErrorCount = (L.eventStats.rxErrorCount + 1) % 4294967296) := by
  cases op with
  | rxDone now f =>
    rcases handleRxDone_cases L M now f h with ⟨rfl, _⟩ | ⟨fc, avg, _, _, _, _, _, ht, hd, he, _⟩
    · exact Or.inl rfl
    · exact Or.inr (Or.inr (Or.inl ⟨ht, hd, he⟩))
  | rxError now =>
    obtain ⟨fc, _, _, _, ht, hd, he, _⟩ := handleRxError_cases L M now h
    exact Or.inr (Or.inr (Or.inr ⟨ht, hd, he⟩))
  | clearRadarPoints => injection h with h; subst h; exact Or.inl rfl
  | clearEventStats => injection h with h; subst h; exact Or.inr (Or.inl rfl)
  | nextFrequency =>
    simp only [FrequencyListener.call, FrequencyListener.nextFrequency] at h
    split at h
    · injection h with h; subst h; exact Or.inl rfl
    · exact Or.inl (retune_cases L M _ h).2.2.2
  | prevFrequency =>
    simp only [FrequencyListener.call, FrequencyListener.prevFrequency] at h
    split at h
    · injection h with h; subst h; exact Or.inl rfl
    · exact Or.inl (retune_cases L M _ h).2.2.2

theorem getCurrentFrequency_defined (L : FrequencyListener)
    (hb : L.config.currentFreqIndex < L.config.frequencies.length) :
    ∃ f, L.getCurrentFrequency = Except.ok f := by
  unfold FrequencyListener.getCurrentFrequency vecAt
  rw [List.getElem?_eq_getElem hb]
  split
  · exact ⟨0, rfl⟩
  · exact ⟨_, rfl⟩

/-! ## The claims -/

/-- C1: on a listener whose history starts empty, after every sequence of
`handleRxDone`, `handleRxError`, `clearRadarPoints` (and `clearEventStats`,
`nextFrequency`, `prevFrequency`) calls that runs, `maxPoints` is unchanged
and the history holds at most `maxPoints` points, also for `maxPoints = 0`;
the sequence runs whenever the cursor is in range and `totalEvents` does not
wrap. -/
theorem history_length_bounded (L : FrequencyListener) (ops : List ListenerOp)
    (hempty : L.radarPoints = []) :
    (∀ L1, L.run ops = Except.ok L1 →
        L1.config.maxPoints = L.config.maxPoints ∧
          L1.radarPoints.length ≤ L.config.maxPoints) ∧
      (L.config.currentFreqIndex < L.config.frequencies.length →
        L.eventStats.totalEvents + ops.length < 4294967296 →
        ∃ L1, L.run ops = Except.ok L1) := by
  refine ⟨fun L1 h => ?_, fun hb hn => run_defined ops L hb hn⟩
  have key := run_invariant
    (fun M => M.config.maxPoints = L.config.maxPoints ∧
      M.radarPoints.length ≤ M.config.maxPoints)
    (by
      intro M M1 op hP hc
      obtain ⟨_, hmp, _, hpts, _⟩ := call_effect M M1 op hc
      refine ⟨hmp.trans hP.1, ?_⟩
      rw [hmp]
      rcases hpts with hp | hp | ⟨p, hp⟩
      · rw [hp]; exact hP.2
      · rw [hp]; exact Nat.zero_le _
      · rw [hp]; exact pushPoint_length_le _ _ _ hP.2)
    ops L L1 ⟨rfl, by rw [hempty]; exact Nat.zero_le _⟩ h
  exact ⟨key.1, key.1 ▸ key.2⟩

/-- Witness for C1: the scenario of three RxDone events with `maxPoints = 2`
runs and leaves at most two points. -/
theorem history_length_bounded_witness :
    scenarioListener.radarPoints = [] ∧
      ∃ L1, scenarioListener.run scenarioOps = Except.ok L1 ∧ L1.radarPoints.length ≤ 2 :=
  ⟨rfl,
    (((history_length_bounded scenarioListener scenarioOps rfl).2
        (by decide) (by decide)).imp
      fun L1 h1 =>
        ⟨h1, ((history_length_bounded scenarioListener scenarioOps rfl).1 L1 h1).2⟩)⟩

/-- C2: on a listener whose history starts empty, after every sequence of
calls without `clearRadarPoints` that runs, the history is the last
`min n maxPoints` of the `n` points recorded (accepted RxDone or CrcError),
in the order they were recorded, each point being the record `recordedBy`
writes out: clock reading, frequency under the cursor, RSSI, SNR -20, length
and event type; the sequence runs whenever the cursor is in range and
`totalEvents` does not wrap. -/
theorem history_is_last_recorded (L : FrequencyListener) (ops : List ListenerOp)
    (hempty : L.radarPoints = []) (hnc : ListenerOp.clearRadarPoints ∉ ops) :
    (∀ L1, L.run ops = Except.ok L1 →
        L1.radarPoints =
          lastN (min (L.recordedPoints ops).length L.config.maxPoints)
            (L.recordedPoints ops)) ∧
      (L.config.currentFreqIndex < L.config.frequencies.length →
        L.eventStats.totalEvents + ops.length < 4294967296 →
        ∃ L1, L.run ops = Except.ok L1) := by
  refine ⟨fun L1 h => ?_, fun hb hn => run_defined ops L hb hn⟩
  have key := run_history ops L L1 [] (by rw [hempty]; simp [lastN]) hnc h
  rw [key, List.nil_append]
  unfold lastN
  congr 1
  omega

/-- Witness for C2: with `maxPoints = 2`, RxDone(433.0 MHz, -70),
RxDone(434.0 MHz, -60), RxDone(435.0 MHz, -90) at clock readings 10, 20 and
30 leave the history [RxDone(434.0, -60), RxDone(435.0, -90)], each point
with its timestamp, SNR -20 and length 0. -/
theorem history_is_last_recorded_witness :
    scenarioListener.radarPoints = [] ∧ ListenerOp.clearRadarPoints ∉ scenarioOps ∧
      ∃ L1, scenarioListener.run scenarioOps = Except.ok L1 ∧
        L1.radarPoints =
          [{ timestamp := 20, frequency := 434000000, rssi := -60, snr := -20,
             packetLength := 0, eventType := EventType.EVENT_RX_DONE },
           { timestamp := 30, frequency := 435000000, rssi := -90, snr := -20,
             packetLength := 0, eventType := EventType.EVENT_RX_DONE }] :=
  ⟨rfl, by decide,
    (((history_is_last_recorded scenarioListener scenarioOps rfl (by decide)).2
        (by decide) (by decide)).imp
      fun L1 h1 =>
        ⟨h1, ((history_is_last_recorded scenarioListener scenarioOps rfl (by decide)).1
          L1 h1).trans (by decide)⟩)⟩


/-- C3, the code at the failing input: from cleared statistics, RxDone at
-70, -60 and -90 dBm leave `totalEvents = 3` and `avgRssi = 21772`, not the
mean -73; the update divides in `uint32_t`. -/
theorem avgRssi_after_three_rxDone :
    (scenarioListener.run threeRxDone).map
        (fun M => (M.eventStats.totalEvents, M.eventStats.avgRssi)) =
      Except.ok (3, 21772) := by
  decide

/-- C4, the code at the failing input: from cleared statistics, CrcError
followed by RxDone at -70 dBm leaves `avgRssi = -95`, while RxDone at -70 dBm
alone leaves -70; the update weights by `totalEvents`, which counts the
CrcError. -/
theorem avgRssi_after_crcError_rxDone :
    (scenarioListener.run [ListenerOp.rxError 5, ListenerOp.rxDone 10 { rssi := -70 }]).map
        (fun M => M.eventStats.avgRssi) = Except.ok (-95) ∧
      (scenarioListener.run [ListenerOp.rxDone 10 { rssi := -70 }]).map
        (fun M => M.eventStats.avgRssi) = Except.ok (-70) := by
  decide

/-- C5: starting from cleared statistics, after every sequence of calls that
runs (`handleRxDone` accepted or rejected, `handleRxError`,
`clearEventStats`, and the others), `totalEvents` equals
`rxDoneCount + rxErrorCount` in 32-bit unsigned arithmetic; the sequence runs
whenever the cursor is in range and `totalEvents` does not wrap. -/
theorem totalEvents_is_done_plus_error (L : FrequencyListener) (ops : List ListenerOp)
    (hclear : L.eventStats = {}) :
    (∀ L1, L.run ops = Except.ok L1 →
        L1.eventStats.totalEvents =
          (L1.eventStats.rxDoneCount + L1.eventStats.rxErrorCount) % 4294967296) ∧
      (L.config.currentFreqIndex < L.config.frequencies.length →
        ops.length < 4294967296 → ∃ L1, L.run ops = Except.ok L1) := by
  refine ⟨fun L1 h => ?_, fun hb hn => run_defined ops L hb (by rw [hclear]; simpa using hn)⟩
  refine run_invariant
    (fun M => M.eventStats.totalEvents =
      (M.eventStats.rxDoneCount + M.eventStats.rxErrorCount) % 4294967296)
    ?_ ops L L1 (by simp only [hclear]) h
  intro M M1 op hP hc
  simp only at hP ⊢
  rcases call_stats M M1 op hc with hs | hs | ⟨ht, hd, he⟩ | ⟨ht, hd, he⟩
  · rw [hs]; exact hP
  · rw [hs]; rfl
  · rw [ht, hd, he, hP]; omega
  · rw [ht, hd, he, hP]; omega

/-- Witness for C5: after CrcError and RxDone the counts are 2 = 1 + 1. -/
theorem totalEvents_is_done_plus_error_witness :
    scenarioListener.eventStats = {} ∧
      ∃ L1,
        scenarioListener.run [ListenerOp.rxError 5, ListenerOp.rxDone 10 { rssi := -70 }] =
          Except.ok L1 ∧
        L1.eventStats.totalEvents =
          (L1.eventStats.rxDoneCount + L1.eventStats.rxErrorCount) % 4294967296 :=
  ⟨rfl,
    (((totalEvents_is_done_plus_error scenarioListener
        [ListenerOp.rxError 5, ListenerOp.rxDone 10 { rssi := -70 }] rfl).2
        (by decide) (by decide)).imp
      fun L1 h1 =>
        ⟨h1, (totalEvents_is_done_plus_error scenarioListener
          [ListenerOp.rxError 5, ListenerOp.rxDone 10 { rssi := -70 }] rfl).1 L1 h1⟩)⟩

/-- C6: for every listener state, clock reading and frame whose RSSI, as
`handleRxDone` reads it into its `int16_t`, is below -120 or above -50, the
call returns the listener unchanged: history, every field of `EventStats`
and all else.  The RSSI read is the frame's own whenever that fits 16
bits. -/
theorem out_of_domain_rssi_ignored (L : FrequencyListener) (now : Nat) (f : RecvFrame_t) :
    (toInt16 f.rssi < -120 ∨ -50 < toInt16 f.rssi → L.handleRxDone now f = Except.ok L) ∧
      (-32768 ≤ f.rssi → f.rssi ≤ 32767 → f.rssi < -120 ∨ -50 < f.rssi →
        L.handleRxDone now f = Except.ok L) := by
  have main : toInt16 f.rssi < -120 ∨ -50 < toInt16 f.rssi →
      L.handleRxDone now f = Except.ok L := by
    intro h
    unfold FrequencyListener.handleRxDone
    simp only
    rw [if_pos h]
  refine ⟨main, fun h1 h2 h => main ?_⟩
  have : toInt16 f.rssi = f.rssi := by unfold toInt16; omega
  rw [this]; exact h

/-- Witness for C6: a frame with RSSI -30 changes nothing. -/
theorem out_of_domain_rssi_ignored_witness :
    ((-30 : Int) < -120 ∨ (-50 : Int) < -30) ∧
      scenarioListener.handleRxDone 10 { rssi := -30 } = Except.ok scenarioListener :=
  ⟨by decide,
    (out_of_domain_rssi_ignored scenarioListener 10 { rssi := -30 }).2
      (by decide) (by decide) (by decide)⟩


/-- C7: an iteration of `listenTask` whose window closes (expiry or stop
request) without any poll made while it was open yielding result code 0 or 1
ends with `eventReceived = false` and the listener unchanged, so the history
and `EventStats` are those before it; with `rxWindowMs = 0` this holds for
every iteration, whatever is waiting on the serial line. -/
theorem timeout_iteration_changes_nothing (L : FrequencyListener) (rxStartTime : Nat)
    (polls : List Poll) :
    ((∀ p ∈ polls.takeWhile (L.windowOpen rxStartTime),
          p.available = true → p.result ≠ 0 ∧ p.result ≠ 1) →
        (∃ p ∈ polls, L.windowOpen rxStartTime p = false) →
        L.listenIteration rxStartTime polls = Except.ok (some (L, false))) ∧
      (L.config.rxWindowMs = 0 → polls ≠ [] →
        L.listenIteration rxStartTime polls = Except.ok (some (L, false))) := by
  constructor
  · induction polls with
    | nil => intro _ hexp; obtain ⟨p, hp, _⟩ := hexp; cases hp
    | cons p ps ih =>
      intro hno hexp
      simp only [FrequencyListener.listenIteration]
      by_cases hopen : L.windowOpen rxStartTime p = true
      · rw [if_pos hopen]
        have hno1 : ∀ q ∈ ps.takeWhile (L.windowOpen rxStartTime),
            q.available = true → q.result ≠ 0 ∧ q.result ≠ 1 := by
          intro q hq
          exact hno q (by rw [List.takeWhile_cons_of_pos hopen]; exact List.mem_cons_of_mem _ hq)
        have hexp1 : ∃ q ∈ ps, L.windowOpen rxStartTime q = false := by
          obtain ⟨q, hq, hcl⟩ := hexp
          rcases List.mem_cons.mp hq with rfl | hq
          · rw [hopen] at hcl; cases hcl
          · exact ⟨q, hq, hcl⟩
        by_cases hav : p.available = true
        · have hp := hno p (by rw [List.takeWhile_cons_of_pos hopen]; exact List.mem_cons_self _ _) hav
          rw [if_pos hav, if_neg hp.1, if_neg hp.2]
          exact ih hno1 hexp1
        · rw [if_neg hav]
          exact ih hno1 hexp1
      · rw [if_neg hopen]
  · intro hz hne
    cases polls with
    | nil => exact absurd rfl hne
    | cons p ps =>
      simp only [FrequencyListener.listenIteration]
      have hcl : ¬ (L.windowOpen rxStartTime p = true) := by
        simp [FrequencyListener.windowOpen, hz]
      rw [if_neg hcl]

/-- Witness for C7: a window of 1000 ms in which the only frame read has
result code 2 times out at 2000 ms and changes nothing; and with an RX window
of 0 ms the iteration times out although a good frame is waiting. -/
theorem timeout_iteration_changes_nothing_witness :
    scenarioListener.listenIteration 0
        [{ now := 0, available := true, result := 2 }, { now := 2000 }] =
        Except.ok (some (scenarioListener, false)) ∧
      zeroWindowListener.config.rxWindowMs = 0 ∧
      zeroWindowListener.listenIteration 0 [framePoll] =
        Except.ok (some (zeroWindowListener, false)) :=
  ⟨(timeout_iteration_changes_nothing scenarioListener 0
      [{ now := 0, available := true, result := 2 }, { now := 2000 }]).1
      (by decide) (by decide),
    rfl,
    (timeout_iteration_changes_nothing zeroWindowListener 0 [framePoll]).2 rfl (by decide)⟩

theorem retune_eq (L : FrequencyListener) (idx : Nat)
    (hb : idx < L.config.frequencies.length) :
    ∃ L1, L.retune idx = Except.ok L1 ∧
      L1.config = { L.config with currentFreqIndex := idx } := by
  obtain ⟨L1, h1⟩ := retune_defined L idx hb
  exact ⟨L1, h1, (retune_cases L L1 idx h1).2.1⟩

theorem isEmpty_false_of_lt {α : Type} (l : List α) (i : Nat) (h : i < l.length) :
    l.isEmpty = false := by
  cases l with
  | nil => simp at h
  | cons a t => rfl

/-- C8 as stated fails on a list of 65537 frequencies: the cursor is a
`uint16_t`, so `prevFrequency` on index 0 yields 0, not 65536, and
`nextFrequency` on index 65535 yields 0, not 65536. -/
theorem cursor_wraps_at_16_bits :
    (wideListenerFirst.config.currentFreqIndex < wideListenerFirst.config.frequencies.length ∧
        ∃ L1, wideListenerFirst.prevFrequency = Except.ok L1 ∧
          L1.config.currentFreqIndex = 0 ∧
          (wideListenerFirst.config.currentFreqIndex +
              wideListenerFirst.config.frequencies.length - 1) %
            wideListenerFirst.config.frequencies.length = 65536) ∧
      (wideListenerHigh.config.currentFreqIndex < wideListenerHigh.config.frequencies.length ∧
        ∃ L1, wideListenerHigh.nextFrequency = Except.ok L1 ∧
          L1.config.currentFreqIndex = 0 ∧
          (wideListenerHigh.config.currentFreqIndex + 1) %
            wideListenerHigh.config.frequencies.length = 65536) := by
  have hlenF : wideListenerFirst.config.frequencies.length = 65537 := List.length_replicate _ _
  have hlenH : wideListenerHigh.config.frequencies.length = 65537 := List.length_replicate _ _
  have hcF : wideListenerFirst.config.currentFreqIndex = 0 := rfl
  have hcH : wideListenerHigh.config.currentFreqIndex = 65535 := rfl
  refine ⟨⟨by rw [hlenF, hcF]; decide, ?_⟩, ⟨by rw [hlenH, hcH]; decide, ?_⟩⟩
  · obtain ⟨L1, h1, hc1⟩ := retune_eq wideListenerFirst 0 (by rw [hlenF]; decide)
    refine ⟨L1, ?_, by rw [hc1], by rw [hlenF, hcF]⟩
    unfold FrequencyListener.prevFrequency
    rw [isEmpty_false_of_lt _ 0 (by rw [hlenF]; decide), hlenF, hcF]
    exact h1
  · obtain ⟨L1, h1, hc1⟩ := retune_eq wideListenerHigh 0 (by rw [hlenH]; decide)
    refine ⟨L1, ?_, by rw [hc1], by rw [hlenH, hcH]⟩
    unfold FrequencyListener.nextFrequency
    rw [isEmpty_false_of_lt _ 0 (by rw [hlenH]; decide), hlenH, hcH]
    exact h1

/-- C8, amended: for every frequency list of length `count` with
`0 < count ≤ 65536` and every in-bounds cursor `i`, `nextFrequency` sets the
cursor to `(i + 1) mod count` and `prevFrequency` sets it to
`(i + count - 1) mod count`, leaving the list as it was; on index `count - 1`
`nextFrequency` yields 0 and on index 0 `prevFrequency` yields `count - 1`. -/
theorem cursor_moves_circularly (L : FrequencyListener)
    (hb : L.config.currentFreqIndex < L.config.frequencies.length)
    (hcount : L.config.frequencies.length ≤ 65536) :
    (∃ L1, L.nextFrequency = Except.ok L1 ∧
        L1.config.frequencies = L.config.frequencies ∧
        L1.config.currentFreqIndex =
          (L.config.currentFreqIndex + 1) % L.config.frequencies.length ∧
        (L.config.currentFreqIndex = L.config.frequencies.length - 1 →
          L1.config.currentFreqIndex = 0)) ∧
      (∃ L2, L.prevFrequency = Except.ok L2 ∧
        L2.config.frequencies = L.config.frequencies ∧
        L2.config.currentFreqIndex =
          (L.config.currentFreqIndex + L.config.frequencies.length - 1) %
            L.config.frequencies.length ∧
        (L.config.currentFreqIndex = 0 →
          L2.config.currentFreqIndex = L.config.frequencies.length - 1)) := by
  have hne := isEmpty_false_of_lt _ _ hb
  have hpos : 0 < L.config.frequencies.length := by omega
  constructor
  · obtain ⟨L1, h1, hc1⟩ := retune_eq L _ (nextIndex_lt L.config.currentFreqIndex _ hpos)
    have hidx : ((L.config.currentFreqIndex + 1) % L.config.frequencies.length) % 65536 =
        (L.config.currentFreqIndex + 1) % L.config.frequencies.length :=
      Nat.mod_eq_of_lt (lt_of_lt_of_le (Nat.mod_lt _ hpos) hcount)
    refine ⟨L1, ?_, by rw [hc1], by rw [hc1]; exact hidx, ?_⟩
    · unfold FrequencyListener.nextFrequency
      rw [hne]; exact h1
    · intro hlast
      rw [hc1]
      show ((L.config.currentFreqIndex + 1) % L.config.frequencies.length) % 65536 = 0
      rw [hlast, Nat.sub_add_cancel hpos, Nat.mod_self]
  · obtain ⟨L2, h2, hc2⟩ := retune_eq L _ (prevIndex_lt L.config.currentFreqIndex _ hb)
    have hidx : (if L.config.currentFreqIndex = 0 then L.config.frequencies.length - 1
          else L.config.currentFreqIndex - 1) % 65536 =
        (L.config.currentFreqIndex + L.config.frequencies.length - 1) %
          L.config.frequencies.length := by
      split
      · rename_i h0
        rw [h0, Nat.zero_add, Nat.mod_eq_of_lt (by omega : L.config.frequencies.length - 1 < 65536),
          Nat.mod_eq_of_lt (by omega)]
      · rename_i h0
        have e : L.config.currentFreqIndex + L.config.frequencies.length - 1 =
            (L.config.currentFreqIndex - 1) + L.config.frequencies.length := by omega
        rw [e, Nat.add_mod_right, Nat.mod_eq_of_lt (by omega : L.config.currentFreqIndex - 1 < 65536),
          Nat.mod_eq_of_lt (by omega)]
    refine ⟨L2, ?_, by rw [hc2], by rw [hc2]; exact hidx, ?_⟩
    · unfold FrequencyListener.prevFrequency
      rw [hne]; exact h2
    · intro h0
      rw [hc2]
      show (if L.config.currentFreqIndex = 0 then L.config.frequencies.length - 1
          else L.config.currentFreqIndex - 1) % 65536 = L.config.frequencies.length - 1
      rw [if_pos h0]
      exact Nat.mod_eq_of_lt (by omega)

/-- Witness for C8, amended: on the three-frequency listener with the cursor
on index 0, `prevFrequency` moves to index 2 and `nextFrequency` to index 1. -/
theorem cursor_moves_circularly_witness :
    scenarioListener.config.currentFreqIndex < scenarioListener.config.frequencies.length ∧
      scenarioListener.config.frequencies.length ≤ 65536 ∧
      (∃ L1, scenarioListener.nextFrequency = Except.ok L1 ∧ L1.config.currentFreqIndex = 1) ∧
      (∃ L2, scenarioListener.prevFrequency = Except.ok L2 ∧ L2.config.currentFreqIndex = 2) :=
  ⟨by decide, by decide,
    (cursor_moves_circularly scenarioListener (by decide) (by decide)).1.imp
      (fun _ h => ⟨h.1, h.2.2.1⟩),
    (cursor_moves_circularly scenarioListener (by decide) (by decide)).2.imp
      (fun _ h => ⟨h.1, h.2.2.1⟩)⟩


/-- C9: from a configuration whose cursor is below the length of its
frequency list, no sequence of `nextFrequency`, `prevFrequency`,
`handleRxDone`, `handleRxError` (and clearing) calls makes an out-of-range
lookup, and after every such sequence that runs the list is the same, the
cursor is still below its length and `getCurrentFrequency` reads in range;
the sequence runs whenever `totalEvents` does not wrap. -/
theorem cursor_stays_in_bounds (L : FrequencyListener) (ops : List ListenerOp)
    (hb : L.config.currentFreqIndex < L.config.frequencies.length) :
    L.run ops ≠ Except.error Fault.indexOutOfRange ∧
      (∀ L1, L.run ops = Except.ok L1 →
        L1.config.frequencies = L.config.frequencies ∧
          L1.config.currentFreqIndex < L1.config.frequencies.length ∧
          ∃ f, L1.getCurrentFrequency = Except.ok f) ∧
      (L.eventStats.totalEvents + ops.length < 4294967296 →
        ∃ L1, L.run ops = Except.ok L1) := by
  refine ⟨run_no_index_fault ops L hb, fun L1 h => ?_, fun hn => run_defined ops L hb hn⟩
  have key := run_invariant
    (fun M => M.config.frequencies = L.config.frequencies ∧
      M.config.currentFreqIndex < M.config.frequencies.length)
    (by
      intro M M1 op hP hc
      obtain ⟨hf, _, hcur, _, _⟩ := call_effect M M1 op hc
      exact ⟨hf.trans hP.1, by rw [hf]; exact hcur hP.2⟩)
    ops L L1 ⟨rfl, hb⟩ h
  exact ⟨key.1, key.2, getCurrentFrequency_defined L1 key.2⟩

/-- Witness for C9: after the scenario (two `nextFrequency` calls among three
RxDone events) the cursor is in range. -/
theorem cursor_stays_in_bounds_witness :
    scenarioListener.config.currentFreqIndex < scenarioListener.config.frequencies.length ∧
      ∃ L1, scenarioListener.run scenarioOps = Except.ok L1 ∧
        L1.config.currentFreqIndex < L1.config.frequencies.length :=
  ⟨by decide,
    ((cursor_stays_in_bounds scenarioListener scenarioOps (by decide)).2.2 (by decide)).imp
      fun L1 h1 =>
        ⟨h1, ((cursor_stays_in_bounds scenarioListener scenarioOps (by decide)).2.1 L1 h1).2.1⟩⟩

/-! ## Lemmas on the activity score -/

/-- The final clamp lands between its bounds on any linearly ordered
carrier, whatever the arithmetic that produced its argument. -/
theorem constrain_float_mem {F : Type} [LinearOrder F] (v lo hi : F) (h : lo ≤ hi) :
    lo ≤ constrain_float v lo hi ∧ constrain_float v lo hi ≤ hi := by
  unfold constrain_float
  split
  · exact ⟨le_refl _, h⟩
  · rename_i h1
    split
    · exact ⟨h, le_refl _⟩
    · rename_i h2
      exact ⟨not_lt.mp h1, not_lt.mp h2⟩

/-- C10: for every `FrequencyStats` value and clock reading,
`calculateActivityScore` returns a score between 0 and 1, and exactly 0 when
`sampleCount = 0`: in exact arithmetic, and over every arithmetic on a
linearly ordered carrier in which the literal 0 is at most the literal 1. -/
theorem activity_score_in_unit_interval (stats : FrequencyStats) (now : Nat) :
    (0 ≤ calculateActivityScore stats now ∧ calculateActivityScore stats now ≤ 1 ∧
        (stats.sampleCount = 0 → calculateActivityScore stats now = 0)) ∧
      ∀ (F : Type) [LinearOrder F] (A : FloatArith F), A.lit 0 ≤ A.lit 1 →
        A.lit 0 ≤ calculateActivityScoreIn A stats now ∧
          calculateActivityScoreIn A stats now ≤ A.lit 1 ∧
          (stats.sampleCount = 0 → calculateActivityScoreIn A stats now = A.lit 0) := by
  have gen : ∀ (F : Type) [LinearOrder F] (A : FloatArith F), A.lit 0 ≤ A.lit 1 →
      A.lit 0 ≤ calculateActivityScoreIn A stats now ∧
        calculateActivityScoreIn A stats now ≤ A.lit 1 ∧
        (stats.sampleCount = 0 → calculateActivityScoreIn A stats now = A.lit 0) := by
    intro F _ A h01
    unfold calculateActivityScoreIn
    by_cases hs : stats.sampleCount = 0
    · rw [if_pos hs]
      exact ⟨le_refl _, h01, fun _ => rfl⟩
    · rw [if_neg hs]
      have hm := constrain_float_mem (activityWeightedSum A stats now) (A.lit 0) (A.lit 1) h01
      exact ⟨hm.1, hm.2, fun h => absurd h hs⟩
  refine ⟨?_, gen⟩
  have h := gen ℚ exactArith (by norm_num [exactArith])
  exact h

/-- Witness for C10: the sample frequency scores 117/200. -/
theorem activity_score_in_unit_interval_witness :
    calculateActivityScore sampleStats 31000 = 117 / 200 ∧
      exactArith.lit 0 ≤ exactArith.lit 1 ∧
      exactArith.lit 0 ≤ calculateActivityScoreIn exactArith sampleStats 31000 ∧
      calculateActivityScoreIn exactArith sampleStats 31000 ≤ exactArith.lit 1 :=
  ⟨by
      norm_num [calculateActivityScore, calculateActivityScoreIn, sampleStats,
        activityWeightedSum, normalize, constrain, constrain_float, stdMin, stdMax,
        exactArith, subU32, toU32],
    by norm_num [exactArith],
    ((activity_score_in_unit_interval sampleStats 31000).2 ℚ exactArith
      (by norm_num [exactArith])).1,
    ((activity_score_in_unit_interval sampleStats 31000).2 ℚ exactArith
      (by norm_num [exactArith])).2.1⟩


/-! ## Lemmas on the statistics collector -/

theorem pushEvict_lastN {α : Type} (H : List α) (cap : Nat) (x : α) :
    pushEvict (lastN cap H) cap x = lastN cap (H ++ [x]) := by
  unfold pushEvict lastN
  simp only [List.length_append, List.length_singleton, List.length_drop]
  by_cases hlt : H.length < cap
  · have h0 : H.length - cap = 0 := by omega
    have h1 : H.length + 1 - cap = 0 := by omega
    rw [h0, h1]
    simp only [List.drop_zero, Nat.sub_zero]
    rw [if_neg (by omega)]
  · have hk : H.length - cap ≤ H.length := Nat.sub_le _ _
    rw [if_pos (by omega)]
    rw [← List.drop_append_of_le_length hk, ← List.drop_one, List.drop_drop]
    congr 1
    omega

theorem lastN_nil {α : Type} (k : Nat) : lastN k ([] : List α) = [] := by
  simp [lastN]

theorem lastN_min {α : Type} (k : Nat) (l : List α) : lastN (min l.length k) l = lastN k l := by
  unfold lastN
  congr 1
  omega

theorem length_lastN {α : Type} (k : Nat) (l : List α) : (lastN k l).length = min l.length k := by
  unfold lastN
  rw [List.length_drop]
  omega

theorem lastN_ne_nil {α : Type} (k : Nat) (l : List α) (hk : 0 < k) (hl : l ≠ []) :
    lastN k l ≠ [] := by
  intro h
  have := length_lastN k l
  rw [h] at this
  have hpos : 0 < l.length := List.length_pos.mpr hl
  simp only [List.length_nil] at this
  omega

theorem addSamples_snoc (C : StatisticsCollector) (samples : List ScanSample) (s : ScanSample) :
    C.addSamples (samples ++ [s]) = (C.addSamples samples).addSample s := by
  simp [StatisticsCollector.addSamples, List.foldl_append]

theorem mapFind_mapInsert {V : Type} (m : List (Nat × V)) (k : Nat) (v : V) (k1 : Nat)
    (hk : mapFind m k = none) :
    mapFind (mapInsert m k v) k1 = if k1 = k then some v else mapFind m k1 := by
  induction m with
  | nil =>
    simp only [mapInsert, mapFind]
    by_cases h : k = k1
    · simp [h]
    · simp [h, Ne.symm h]
  | cons p rest ih =>
    obtain ⟨k2, v2⟩ := p
    simp only [mapFind] at hk
    by_cases h2 : k2 = k
    · simp [h2] at hk
    · rw [if_neg h2] at hk
      simp only [mapInsert]
      by_cases hlt : k < k2
      · rw [if_pos hlt]
        simp only [mapFind]
        by_cases h : k = k1
        · simp [h]
        · simp [h, Ne.symm h]
      · rw [if_neg hlt]
        simp only [mapFind]
        by_cases h21 : k2 = k1
        · have : ¬ k1 = k := fun e => h2 (h21.trans e)
          simp [h21, this]
        · simp only [h21, if_false]
          exact ih hk

theorem mapFind_cons {V : Type} (k2 : Nat) (v2 : V) (rest : List (Nat × V)) (k : Nat) :
    mapFind ((k2, v2) :: rest) k = if k2 = k then some v2 else mapFind rest k := rfl

theorem mapFind_map_update {V : Type} (m : List (Nat × V)) (k : Nat) (f : V → V) (k1 : Nat) :
    mapFind (m.map fun p => if p.1 = k then (p.1, f p.2) else p) k1 =
      if k1 = k then (mapFind m k).map f else mapFind m k1 := by
  induction m with
  | nil => simp [mapFind]
  | cons p rest ih =>
    obtain ⟨k2, v2⟩ := p
    simp only [List.map_cons]
    by_cases h2 : k2 = k
    · rw [if_pos h2, mapFind_cons, mapFind_cons, mapFind_cons, ih]
      by_cases h : k2 = k1
      · have hk : k1 = k := h.symm.trans h2
        simp [h, h2, hk]
      · have hk : ¬ k1 = k := fun e => h (h2.trans e.symm)
        have hk2 : ¬ k = k1 := fun e => hk e.symm
        simp [h2, hk, hk2]
    · rw [if_neg h2, mapFind_cons, mapFind_cons, mapFind_cons, ih]
      by_cases h : k2 = k1
      · have hk : ¬ k1 = k := fun e => h2 (h.trans e)
        simp [h, hk]
      · simp [h, h2]

/-- What `operator[]` followed by an update leaves under each key. -/
theorem mapFind_mapAt {V : Type} (m : List (Nat × V)) (k : Nat) (dflt : V) (f : V → V)
    (k1 : Nat) :
    mapFind (mapAt m k dflt f) k1 =
      if k1 = k then some (f ((mapFind m k).getD dflt)) else mapFind m k1 := by
  unfold mapAt
  cases hk : mapFind m k with
  | none =>
    simp only
    rw [mapFind_mapInsert m k _ k1 hk]
    simp
  | some v =>
    simp only
    rw [mapFind_map_update, hk]
    simp

theorem mapFind_map_values {V : Type} (m : List (Nat × V)) (g : Nat → V → V) (k : Nat) :
    mapFind (m.map fun p => (p.1, g p.1 p.2)) k = (mapFind m k).map (g k) := by
  induction m with
  | nil => simp [mapFind]
  | cons p rest ih =>
    obtain ⟨k2, v2⟩ := p
    simp only [List.map_cons]
    rw [mapFind_cons, mapFind_cons, ih]
    by_cases h : k2 = k
    · simp [h]
    · simp [h]

/-- The recent-sample history after adding samples to a collector whose
history is the last 100 of `H`. -/
theorem addSamples_recent (samples : List ScanSample) (C : StatisticsCollector)
    (H : List ScanSample) (hC : C.recentSamples = lastN maxRecentSamples H) :
    (C.addSamples samples).recentSamples = lastN maxRecentSamples (H ++ samples) := by
  induction samples using List.reverseRecOn with
  | nil => simpa [StatisticsCollector.addSamples] using hC
  | append_singleton l s ih =>
    rw [addSamples_snoc]
    simp only [StatisticsCollector.addSample]
    rw [ih, pushEvict_lastN, List.append_assoc]

/-- The window of frequency `f` after adding samples to the empty collector. -/
theorem addSamples_window (samples : List ScanSample) (f : Nat) :
    mapFind (({} : StatisticsCollector).addSamples samples).rssiWindows f =
      if rssiOf f samples = [] then none
      else some { rssiWindow := lastN 10 (rssiOf f samples), windowSize := 10 } := by
  induction samples using List.reverseRecOn with
  | nil => simp [StatisticsCollector.addSamples, rssiOf, mapFind]
  | append_singleton l s ih =>
    rw [addSamples_snoc]
    simp only [StatisticsCollector.addSample]
    rw [mapFind_mapAt]
    by_cases hf : s.frequency = f
    · have hr : rssiOf f (l ++ [s]) = rssiOf f l ++ [s.rssi] := by
        simp [rssiOf, List.filter_append, hf]
      subst hf
      rw [if_pos rfl, hr, ih]
      simp only [List.append_ne_nil_of_right_ne_nil _ (List.cons_ne_nil _ _), if_false]
      by_cases hl : rssiOf s.frequency l = []
      · simp [hl, SlidingWindow.add, pushEvict, lastN]
      · simp only [hl, if_false, Option.getD_some, SlidingWindow.add]
        rw [pushEvict_lastN]
    · have hr : rssiOf f (l ++ [s]) = rssiOf f l := by
        simp [rssiOf, List.filter_append, hf]
      rw [if_neg (fun e => hf e.symm), hr, ih]


theorem addToStats_eq (s : ScanSample) (n pc ts : Nat) :
    addToStats s { frequency := s.frequency, sampleCount := n, packetCount := pc, lastSeen := ts } =
      { frequency := s.frequency, sampleCount := (n + 1) % 65536,
        packetCount := if s.packetReceived then (pc + 1) % 65536 else pc,
        lastSeen := s.timestamp } := by
  unfold addToStats
  by_cases h0 : s.frequency = 0 <;> cases hp : s.packetReceived <;> simp [h0]

theorem addToStats_default (s : ScanSample) :
    addToStats s {} =
      { frequency := s.frequency, sampleCount := 1,
        packetCount := if s.packetReceived then 1 else 0, lastSeen := s.timestamp } := by
  unfold addToStats
  cases hp : s.packetReceived <;> simp

/-- The entry of frequency `f` after adding samples to the empty collector. -/
theorem addSamples_stats (samples : List ScanSample) (f : Nat) :
    mapFind (({} : StatisticsCollector).addSamples samples).freqStatsMap f =
      (samplesOf f samples).getLast?.map fun s =>
        { frequency := f, sampleCount := (samplesOf f samples).length % 65536,
          packetCount :=
            ((samplesOf f samples).filter fun t => t.packetReceived).length % 65536,
          lastSeen := s.timestamp } := by
  induction samples using List.reverseRecOn with
  | nil => simp [StatisticsCollector.addSamples, samplesOf, mapFind]
  | append_singleton l s ih =>
    rw [addSamples_snoc]
    simp only [StatisticsCollector.addSample]
    rw [mapFind_mapAt]
    by_cases hf : s.frequency = f
    · have hr : samplesOf f (l ++ [s]) = samplesOf f l ++ [s] := by
        simp [samplesOf, List.filter_append, hf]
      subst hf
      rw [if_pos rfl, hr, ih, List.getLast?_append, List.getLast?_singleton]
      simp only [Option.or_some, Option.map_some', List.length_append, List.length_singleton,
        List.filter_append]
      cases hl : (samplesOf s.frequency l).getLast? with
      | none =>
        have hnil : samplesOf s.frequency l = [] := List.getLast?_eq_none_iff.mp hl
        simp only [Option.map_none', Option.getD_none, hnil, List.filter_nil, List.length_nil,
          List.nil_append]
        rw [addToStats_default]
        cases hp : s.packetReceived <;> simp [hp]
      | some t =>
        simp only [Option.map_some', Option.getD_some]
        rw [addToStats_eq]
        cases hp : s.packetReceived <;> simp [hp]
    · have hr : samplesOf f (l ++ [s]) = samplesOf f l := by
        simp [samplesOf, List.filter_append, hf]
      rw [if_neg (fun e => hf e.symm), hr, ih]


theorem foldl_min_spec (l : List Int) (a : Int) :
    (l.foldl (fun m v => if v < m then v else m) a = a ∨
        l.foldl (fun m v => if v < m then v else m) a ∈ l) ∧
      l.foldl (fun m v => if v < m then v else m) a ≤ a ∧
      ∀ v ∈ l, l.foldl (fun m v => if v < m then v else m) a ≤ v := by
  induction l generalizing a with
  | nil => simp
  | cons x xs ih =>
    simp only [List.foldl_cons, List.mem_cons]
    obtain ⟨h1, h2, h3⟩ := ih (if x < a then x else a)
    have hle : (if x < a then x else a) ≤ a ∧ (if x < a then x else a) ≤ x := by
      split <;> constructor <;> omega
    refine ⟨?_, le_trans h2 hle.1, ?_⟩
    · rcases h1 with h1 | h1
      · rw [h1]
        by_cases hx : x < a
        · rw [if_pos hx]; exact Or.inr (Or.inl rfl)
        · rw [if_neg hx]; exact Or.inl rfl
      · exact Or.inr (Or.inr h1)
    · intro v hv
      rcases hv with rfl | hv
      · exact le_trans h2 hle.2
      · exact h3 v hv

theorem foldl_max_spec (l : List Int) (a : Int) :
    (l.foldl (fun m v => if v > m then v else m) a = a ∨
        l.foldl (fun m v => if v > m then v else m) a ∈ l) ∧
      a ≤ l.foldl (fun m v => if v > m then v else m) a ∧
      ∀ v ∈ l, v ≤ l.foldl (fun m v => if v > m then v else m) a := by
  induction l generalizing a with
  | nil => simp
  | cons x xs ih =>
    simp only [List.foldl_cons, List.mem_cons]
    obtain ⟨h1, h2, h3⟩ := ih (if x > a then x else a)
    have hle : a ≤ (if x > a then x else a) ∧ x ≤ (if x > a then x else a) := by
      split <;> constructor <;> omega
    refine ⟨?_, le_trans hle.1 h2, ?_⟩
    · rcases h1 with h1 | h1
      · rw [h1]
        by_cases hx : x > a
        · rw [if_pos hx]; exact Or.inr (Or.inl rfl)
        · rw [if_neg hx]; exact Or.inl rfl
      · exact Or.inr (Or.inr h1)
    · intro v hv
      rcases hv with rfl | hv
      · exact le_trans hle.2 h2
      · exact h3 v hv

/-- On a non-empty window `getMin` is its least element. -/
theorem getMin_spec (w : SlidingWindow) (hne : w.rssiWindow ≠ []) :
    w.getMin ∈ w.rssiWindow ∧ ∀ v ∈ w.rssiWindow, w.getMin ≤ v := by
  unfold SlidingWindow.getMin
  cases hw : w.rssiWindow with
  | nil => exact absurd hw hne
  | cons v0 rest =>
    simp only
    obtain ⟨h1, _, h3⟩ := foldl_min_spec (v0 :: rest) v0
    refine ⟨?_, h3⟩
    rcases h1 with h1 | h1
    · rw [h1]; exact List.mem_cons_self _ _
    · exact h1

/-- On a non-empty window `getMax` is its greatest element. -/
theorem getMax_spec (w : SlidingWindow) (hne : w.rssiWindow ≠ []) :
    w.getMax ∈ w.rssiWindow ∧ ∀ v ∈ w.rssiWindow, v ≤ w.getMax := by
  unfold SlidingWindow.getMax
  cases hw : w.rssiWindow with
  | nil => exact absurd hw hne
  | cons v0 rest =>
    simp only
    obtain ⟨h1, _, h3⟩ := foldl_max_spec (v0 :: rest) v0
    refine ⟨?_, h3⟩
    rcases h1 with h1 | h1
    · rw [h1]; exact List.mem_cons_self _ _
    · exact h1

/-- The entry `updateStatistics` leaves under each key. -/
theorem getStats_updateStatistics (C : StatisticsCollector) (now : Nat → Nat) (f : Nat) :
    (C.updateStatistics now).getStats f =
      (C.getStats f).map fun st =>
        updateEntry ((mapFind C.rssiWindows f).getD {}) st (now f) := by
  unfold StatisticsCollector.getStats StatisticsCollector.updateStatistics
  exact mapFind_map_values C.freqStatsMap
    (fun k st => updateEntry ((mapFind C.rssiWindows k).getD {}) st (now k)) f

theorem updateEntry_of_nonempty (w : SlidingWindow) (st : FrequencyStats) (now : Nat)
    (hne : w.rssiWindow ≠ []) :
    (updateEntry w st now).avgRssi = w.getAverage ∧
      (updateEntry w st now).maxRssi = w.getMax ∧
      (updateEntry w st now).minRssi = w.getMin ∧
      (updateEntry w st now).frequency = st.frequency ∧
      (updateEntry w st now).sampleCount = st.sampleCount := by
  have hpos : w.size > 0 := List.length_pos.mpr hne
  unfold updateEntry
  rw [if_pos hpos]
  exact ⟨rfl, rfl, rfl, rfl, rfl⟩

/-- After adding samples to the empty collector and updating, the entry of
a sampled frequency carries the aggregates of its window, the last 10 RSSI
values of that frequency. -/
theorem getStats_after_update (samples : List ScanSample) (f : Nat) (now : Nat → Nat)
    (hn : 1 ≤ (rssiOf f samples).length) :
    ∃ st, ((({} : StatisticsCollector).addSamples samples).updateStatistics now).getStats f =
        some st ∧
      st.avgRssi =
        SlidingWindow.getAverage { rssiWindow := lastN 10 (rssiOf f samples), windowSize := 10 } ∧
      st.maxRssi =
        SlidingWindow.getMax { rssiWindow := lastN 10 (rssiOf f samples), windowSize := 10 } ∧
      st.minRssi =
        SlidingWindow.getMin { rssiWindow := lastN 10 (rssiOf f samples), windowSize := 10 } := by
  have hne : rssiOf f samples ≠ [] := List.length_pos.mp hn
  have hs : samplesOf f samples ≠ [] := by
    intro h
    apply hne
    simp only [rssiOf]
    rw [show (samples.filter fun s => s.frequency = f) = samplesOf f samples from rfl, h]
    rfl
  rw [getStats_updateStatistics]
  unfold StatisticsCollector.getStats
  rw [addSamples_stats, addSamples_window, if_neg hne]
  cases hl : (samplesOf f samples).getLast? with
  | none => exact absurd (List.getLast?_eq_none_iff.mp hl) hs
  | some t =>
    simp only [Option.map_some', Option.getD_some]
    have hw : (lastN 10 (rssiOf f samples)) ≠ [] := lastN_ne_nil 10 _ (by decide) hne
    obtain ⟨h1, h2, h3, _⟩ := updateEntry_of_nonempty
      { rssiWindow := lastN 10 (rssiOf f samples), windowSize := 10 }
      { frequency := f, sampleCount := (samplesOf f samples).length % 65536,
        packetCount := ((samplesOf f samples).filter fun t => t.packetReceived).length % 65536,
        lastSeen := t.timestamp } (now f) hw
    exact ⟨_, rfl, h1, h2, h3⟩


/-! ## The claims on the statistics collector -/

/-- C11: for every frequency `f` and every sequence of samples added to the
empty collector of which `n ≥ 1` are for `f`, after `updateStatistics` the
entry `getStats f` exists and its `minRssi` and `maxRssi` are the least and
the greatest of the last `min n 10` RSSI values added for `f`. -/
theorem window_min_max (samples : List ScanSample) (f : Nat) (now : Nat → Nat)
    (hn : 1 ≤ (rssiOf f samples).length) :
    ∃ st, ((({} : StatisticsCollector).addSamples samples).updateStatistics now).getStats f =
        some st ∧
      st.minRssi ∈ lastN (min (rssiOf f samples).length 10) (rssiOf f samples) ∧
      (∀ v ∈ lastN (min (rssiOf f samples).length 10) (rssiOf f samples), st.minRssi ≤ v) ∧
      st.maxRssi ∈ lastN (min (rssiOf f samples).length 10) (rssiOf f samples) ∧
      (∀ v ∈ lastN (min (rssiOf f samples).length 10) (rssiOf f samples), v ≤ st.maxRssi) := by
  obtain ⟨st, hst, _, hmax, hmin⟩ := getStats_after_update samples f now hn
  have hne : rssiOf f samples ≠ [] := List.length_pos.mp hn
  have hw : (lastN 10 (rssiOf f samples)) ≠ [] := lastN_ne_nil 10 _ (by decide) hne
  have hmn := getMin_spec { rssiWindow := lastN 10 (rssiOf f samples), windowSize := 10 } hw
  have hmx := getMax_spec { rssiWindow := lastN 10 (rssiOf f samples), windowSize := 10 } hw
  rw [lastN_min]
  rw [← hmin] at hmn
  rw [← hmax] at hmx
  exact ⟨st, hst, hmn.1, hmn.2, hmx.1, hmx.2⟩

/-- Witness for C11: after 15 samples with RSSI -100, -99, ..., -86 the entry
has `minRssi = -95` and `maxRssi = -86`. -/
theorem window_min_max_witness :
    1 ≤ (rssiOf 433000000 risingSamples).length ∧
      ∃ st, ((({} : StatisticsCollector).addSamples risingSamples).updateStatistics
          fun _ => 20).getStats 433000000 = some st ∧
        st.minRssi = -95 ∧ st.maxRssi = -86 := by
  have hn : 1 ≤ (rssiOf 433000000 risingSamples).length := by decide
  obtain ⟨st, hst, h1, h2, h3, h4⟩ := window_min_max risingSamples 433000000 (fun _ => 20) hn
  have hW : lastN (min (rssiOf 433000000 risingSamples).length 10)
      (rssiOf 433000000 risingSamples) = [-95, -94, -93, -92, -91, -90, -89, -88, -87, -86] := by
    decide
  rw [hW] at h1 h2 h3 h4
  refine ⟨hn, st, hst, ?_, ?_⟩
  · have := h2 (-95) (by simp)
    simp only [List.mem_cons, List.mem_singleton, List.not_mem_nil, or_false] at h1
    omega
  · have := h4 (-86) (by simp)
    simp only [List.mem_cons, List.mem_singleton, List.not_mem_nil, or_false] at h3
    omega

/-- C12, the code at the failing input: after ten samples of -90 dBm and
`updateStatistics` the entry has `avgRssi = -26305`, not -90; `getAverage`
divides the sum -900 by the unsigned `size()`. -/
theorem avgRssi_after_ten_samples :
    (((({} : StatisticsCollector).addSamples tenSamples).updateStatistics
        fun _ => 20).getStats 433000000).map (fun st => st.avgRssi) = some (-26305) := by
  decide

/-- C14: for every sequence of fewer than 65536 samples added to the empty
collector and every frequency `f` occurring in it, `getStats f` exists with
`frequency = f`, `sampleCount` the number of samples of `f`, `packetCount` the
number of those with `packetReceived` set, and `lastSeen` the timestamp of
the last of them. -/
theorem stats_count_samples (samples : List ScanSample) (f : Nat)
    (hlen : samples.length < 65536) (hocc : ∃ s ∈ samples, s.frequency = f) :
    ∃ st last, (({} : StatisticsCollector).addSamples samples).getStats f = some st ∧
      st.frequency = f ∧
      st.sampleCount = (samplesOf f samples).length ∧
      st.packetCount = ((samplesOf f samples).filter fun t => t.packetReceived).length ∧
      (samplesOf f samples).getLast? = some last ∧
      st.lastSeen = last.timestamp := by
  unfold StatisticsCollector.getStats
  rw [addSamples_stats]
  have h1 : (samplesOf f samples).length ≤ samples.length := List.length_filter_le _ _
  have h2 : ((samplesOf f samples).filter fun t => t.packetReceived).length ≤
      (samplesOf f samples).length := List.length_filter_le _ _
  cases hl : (samplesOf f samples).getLast? with
  | none =>
    obtain ⟨s, hs, hf⟩ := hocc
    have hnil : samplesOf f samples = [] := List.getLast?_eq_none_iff.mp hl
    have : s ∈ samplesOf f samples := by
      simp only [samplesOf, List.mem_filter]
      exact ⟨hs, by simp [hf]⟩
    rw [hnil] at this
    cases this
  | some t =>
    refine ⟨_, t, rfl, rfl, ?_, ?_, rfl, rfl⟩
    · exact Nat.mod_eq_of_lt (by omega)
    · exact Nat.mod_eq_of_lt (by omega)

/-- Witness for C14: among four samples, the two of 433.0 MHz give
`sampleCount = 2`, `packetCount = 2` and `lastSeen = 9`. -/
theorem stats_count_samples_witness :
    mixedSamples.length < 65536 ∧ (∃ s ∈ mixedSamples, s.frequency = 433000000) ∧
      ∃ st, (({} : StatisticsCollector).addSamples mixedSamples).getStats 433000000 = some st ∧
        st.frequency = 433000000 ∧ st.sampleCount = 2 ∧ st.packetCount = 2 ∧ st.lastSeen = 9 := by
  have hocc : ∃ s ∈ mixedSamples, s.frequency = 433000000 := by decide
  obtain ⟨st, last, h, hf, hc, hp, hl, hs⟩ :=
    stats_count_samples mixedSamples 433000000 (by decide) hocc
  have hlast : (samplesOf 433000000 mixedSamples).getLast? =
      some { frequency := 433000000, rssi := -60, timestamp := 9, packetReceived := true } := by
    decide
  rw [hlast] at hl
  cases hl
  exact ⟨by decide, hocc, st, h, hf, hc.trans (by decide), hp.trans (by decide), hs⟩

/-- C18: after `n` samples are added to the empty collector,
`getRecentSampleCount` is `min n 100` and the recent-sample history is the
last `min n 100` samples in arrival order. -/
theorem recent_samples_are_last_hundred (samples : List ScanSample) :
    (({} : StatisticsCollector).addSamples samples).getRecentSampleCount =
        min samples.length 100 ∧
      (({} : StatisticsCollector).addSamples samples).recentSamples =
        lastN (min samples.length 100) samples := by
  have h := addSamples_recent samples {} [] (by simp [lastN])
  rw [List.nil_append] at h
  unfold StatisticsCollector.getRecentSampleCount
  rw [h, lastN_min]
  exact ⟨length_lastN _ _, rfl⟩


theorem cleanupStats_fst (maxAgeMs currentTime : Nat) (m : List (Nat × FrequencyStats))
    (ws : List (Nat × SlidingWindow)) :
    (cleanupStats maxAgeMs currentTime m ws).1 =
      m.filter fun p => !decide (subU32 currentTime p.2.lastSeen > maxAgeMs) := by
  induction m generalizing ws with
  | nil => rfl
  | cons p rest ih =>
    simp only [cleanupStats]
    by_cases h : subU32 currentTime p.2.lastSeen > maxAgeMs
    · rw [if_pos h, ih, List.filter_cons_of_neg (by simp [h])]
    · rw [if_neg h, List.filter_cons_of_pos (by simp [h])]
      simp only
      rw [ih]

theorem cleanupSamples_eq (maxAgeMs currentTime : Nat) (l : List ScanSample) :
    cleanupSamples maxAgeMs currentTime l =
      l.filter fun s => !decide (subU32 currentTime s.timestamp > maxAgeMs) := by
  induction l with
  | nil => rfl
  | cons s rest ih =>
    simp only [cleanupSamples]
    by_cases h : subU32 currentTime s.timestamp > maxAgeMs
    · rw [if_pos h, ih, List.filter_cons_of_neg (by simp [h])]
    · rw [if_neg h, ih, List.filter_cons_of_pos (by simp [h])]

theorem mapFind_eq_none_of_lt {V : Type} (m : List (Nat × V)) (k : Nat)
    (h : ∀ p ∈ m, k < p.1) : mapFind m k = none := by
  induction m with
  | nil => rfl
  | cons p rest ih =>
    obtain ⟨k2, v2⟩ := p
    rw [mapFind_cons]
    have hk : k < k2 := h (k2, v2) (List.mem_cons_self _ _)
    rw [if_neg (by omega)]
    exact ih fun q hq => h q (List.mem_cons_of_mem _ hq)

/-- Lookup in a map with ascending keys after entries are filtered by
value. -/
theorem mapFind_filter {V : Type} (m : List (Nat × V)) (q : V → Bool) (k : Nat)
    (hasc : m.Pairwise fun a b => a.1 < b.1) :
    mapFind (m.filter fun p => q p.2) k = (mapFind m k).filter q := by
  induction m with
  | nil => rfl
  | cons p rest ih =>
    obtain ⟨k2, v2⟩ := p
    rw [List.pairwise_cons] at hasc
    rw [mapFind_cons]
    by_cases hk : k2 = k
    · subst hk
      rw [if_pos rfl]
      have hnone : mapFind rest k2 = none := mapFind_eq_none_of_lt rest k2 hasc.1
      cases hq : q v2 with
      | true =>
        rw [List.filter_cons_of_pos (by simpa using hq), mapFind_cons, if_pos rfl]
        simp [Option.filter, hq]
      | false =>
        rw [List.filter_cons_of_neg (by simp [hq]), ih hasc.2, hnone]
        simp [Option.filter, hq]
    · rw [if_neg hk]
      cases hq : q v2 with
      | true =>
        rw [List.filter_cons_of_pos (by simpa using hq), mapFind_cons, if_neg hk]
        exact ih hasc.2
      | false =>
        rw [List.filter_cons_of_neg (by simp [hq])]
        exact ih hasc.2

theorem mem_mapInsert {V : Type} (m : List (Nat × V)) (k : Nat) (v : V) (p : Nat × V)
    (hp : p ∈ mapInsert m k v) : p = (k, v) ∨ p ∈ m := by
  induction m with
  | nil =>
    simp only [mapInsert, List.mem_singleton] at hp
    exact Or.inl hp
  | cons a rest ih =>
    obtain ⟨k1, v1⟩ := a
    simp only [mapInsert] at hp
    split at hp
    · rcases List.mem_cons.mp hp with h | h
      · exact Or.inl h
      · exact Or.inr h
    · rcases List.mem_cons.mp hp with h | h
      · exact Or.inr (h ▸ List.mem_cons_self _ _)
      · rcases ih h with h1 | h1
        · exact Or.inl h1
        · exact Or.inr (List.mem_cons_of_mem _ h1)

/-- Insertion of an absent key keeps the keys ascending. -/
theorem mapInsert_ascending {V : Type} (m : List (Nat × V)) (k : Nat) (v : V)
    (hasc : m.Pairwise fun a b => a.1 < b.1) (hk : mapFind m k = none) :
    (mapInsert m k v).Pairwise fun a b => a.1 < b.1 := by
  induction m with
  | nil => simp [mapInsert]
  | cons a rest ih =>
    obtain ⟨k1, v1⟩ := a
    rw [mapFind_cons] at hk
    have hne : ¬ k1 = k := by
      intro e; rw [if_pos e] at hk; cases hk
    rw [if_neg hne] at hk
    rw [List.pairwise_cons] at hasc
    simp only [mapInsert]
    by_cases hlt : k < k1
    · rw [if_pos hlt]
      refine List.pairwise_cons.mpr ⟨?_, List.pairwise_cons.mpr hasc⟩
      intro q hq
      rcases List.mem_cons.mp hq with rfl | hq
      · exact hlt
      · exact lt_trans hlt (hasc.1 q hq)
    · rw [if_neg hlt]
      refine List.pairwise_cons.mpr ⟨?_, ih hasc.2 hk⟩
      intro q hq
      rcases mem_mapInsert rest k v q hq with rfl | hq
      · show k1 < k
        omega
      · exact hasc.1 q hq

/-- The call `operator[]` with an update keeps the keys ascending. -/
theorem mapAt_ascending {V : Type} (m : List (Nat × V)) (k : Nat) (dflt : V) (f : V → V)
    (hasc : m.Pairwise fun a b => a.1 < b.1) :
    (mapAt m k dflt f).Pairwise fun a b => a.1 < b.1 := by
  unfold mapAt
  cases hk : mapFind m k with
  | none => exact mapInsert_ascending m k _ hasc hk
  | some v =>
    simp only
    rw [List.pairwise_map]
    refine hasc.imp ?_
    intro a b hab
    by_cases ha : a.1 = k <;> by_cases hb : b.1 = k <;> simp [ha, hb] <;> omega


theorem addToStats_lastSeen (s : ScanSample) (st : FrequencyStats) :
    (addToStats s st).lastSeen = s.timestamp := by
  unfold addToStats
  by_cases h0 : st.frequency = 0 <;> cases hp : s.packetReceived <;> simp [h0]

theorem updateEntry_lastSeen (w : SlidingWindow) (st : FrequencyStats) (now : Nat) :
    (updateEntry w st now).lastSeen = st.lastSeen := by
  unfold updateEntry
  split <;> rfl

theorem mapFind_eq_none_iff {V : Type} (m : List (Nat × V)) (k : Nat) :
    mapFind m k = none ↔ ∀ p ∈ m, p.1 ≠ k := by
  induction m with
  | nil => simp [mapFind]
  | cons p rest ih =>
    obtain ⟨k2, v2⟩ := p
    rw [mapFind_cons]
    by_cases h : k2 = k
    · simp [h]
    · simp [h, ih]

/-- Every call keeps the keys of the per-frequency map ascending, and moves
the last-seen time of `f` as `trackStep` says. -/
theorem call_tracks (C : StatisticsCollector) (op : CollectorOp) (f : Nat)
    (hasc : C.freqStatsMap.Pairwise fun a b => a.1 < b.1) :
    ((C.call op).freqStatsMap.Pairwise fun a b => a.1 < b.1) ∧
      ((C.call op).getStats f).map (fun st => st.lastSeen) =
        trackStep f ((C.getStats f).map fun st => st.lastSeen) op := by
  cases op with
  | addSample s =>
    refine ⟨mapAt_ascending _ _ _ _ hasc, ?_⟩
    simp only [StatisticsCollector.call, StatisticsCollector.addSample,
      StatisticsCollector.getStats, trackStep]
    rw [mapFind_mapAt]
    by_cases hf : s.frequency = f
    · rw [if_pos hf.symm, if_pos hf]
      simp [addToStats_lastSeen]
    · rw [if_neg (fun e => hf e.symm), if_neg hf]
  | updateStatistics now =>
    constructor
    · simp only [StatisticsCollector.call, StatisticsCollector.updateStatistics]
      rw [List.pairwise_map]
      exact hasc
    · simp only [StatisticsCollector.call, trackStep]
      rw [getStats_updateStatistics]
      cases C.getStats f with
      | none => rfl
      | some st => simp [updateEntry_lastSeen]
  | cleanup maxAgeMs currentTime =>
    simp only [StatisticsCollector.call, StatisticsCollector.cleanup,
      StatisticsCollector.getStats, trackStep]
    rw [cleanupStats_fst]
    refine ⟨hasc.filter _, ?_⟩
    rw [mapFind_filter C.freqStatsMap
      (fun v => !decide (subU32 currentTime v.lastSeen > maxAgeMs)) f hasc]
    cases mapFind C.freqStatsMap f with
    | none => rfl
    | some st =>
      by_cases h : subU32 currentTime st.lastSeen > maxAgeMs <;> simp [Option.filter, h]
  | clear =>
    exact ⟨List.Pairwise.nil, rfl⟩

theorem run_tracks (f : Nat) : ∀ (ops : List CollectorOp) (C : StatisticsCollector),
    (C.freqStatsMap.Pairwise fun a b => a.1 < b.1) →
    ((C.run ops).freqStatsMap.Pairwise fun a b => a.1 < b.1) ∧
      ((C.run ops).getStats f).map (fun st => st.lastSeen) =
        ops.foldl (trackStep f) ((C.getStats f).map fun st => st.lastSeen) := by
  intro ops
  induction ops with
  | nil => intro C hasc; exact ⟨hasc, rfl⟩
  | cons op ops ih =>
    intro C hasc
    obtain ⟨h1, h2⟩ := call_tracks C op f hasc
    obtain ⟨h3, h4⟩ := ih (C.call op) h1
    refine ⟨h3, ?_⟩
    simp only [StatisticsCollector.run, List.foldl_cons] at h4 ⊢
    rw [h4, h2]

/-- C13: for every collector state, `maxAgeMs` and clock reading `now`, after
`cleanup` no tracked frequency has `now - lastSeen > maxAgeMs` and no recent
sample has `now - timestamp > maxAgeMs`, the subtractions being those of
`uint32_t`. -/
theorem cleanup_leaves_nothing_stale (C : StatisticsCollector) (maxAgeMs now : Nat) :
    (∀ p ∈ (C.cleanup maxAgeMs now).freqStatsMap, ¬ (subU32 now p.2.lastSeen > maxAgeMs)) ∧
      ∀ s ∈ (C.cleanup maxAgeMs now).recentSamples, ¬ (subU32 now s.timestamp > maxAgeMs) := by
  simp only [StatisticsCollector.cleanup]
  rw [cleanupStats_fst, cleanupSamples_eq]
  constructor
  · intro p hp
    simpa using (List.mem_filter.mp hp).2
  · intro s hs
    simpa using (List.mem_filter.mp hs).2

/-- C15: after every sequence of `addSample`, `updateStatistics`, `cleanup`
and `clear` calls on a new collector, `getStats f` is the null pointer
exactly when `f` has no entry in the map, which is exactly when `f` was not
sampled since the collector was created or last cleared, or was evicted by
`cleanup` since its latest sample; on the empty collector it is null for
every frequency. -/
theorem getStats_null_iff_untracked (ops : List CollectorOp) (f : Nat) :
    ((({} : StatisticsCollector).run ops).getStats f = none ↔
        ∀ p ∈ (({} : StatisticsCollector).run ops).freqStatsMap, p.1 ≠ f) ∧
      ((({} : StatisticsCollector).run ops).getStats f = none ↔ trackedSince f ops = none) ∧
      ∀ g, ({} : StatisticsCollector).getStats g = none := by
  refine ⟨mapFind_eq_none_iff _ f, ?_, fun g => rfl⟩
  have h := (run_tracks f ops {} List.Pairwise.nil).2
  have h0 : (({} : StatisticsCollector).getStats f).map (fun st => st.lastSeen) = none := rfl
  rw [h0] at h
  unfold trackedSince
  rw [← h]
  cases (({} : StatisticsCollector).run ops).getStats f <;> simp


/-! ## Lemmas on the ranking -/

theorem not_score_gt_iff (a b : FrequencyStats) :
    ¬ (b.activityScore > a.activityScore) ↔ scoreGE a b := by
  unfold scoreGE
  exact not_lt

theorem sortKeepingTies_contract : SortsByScore sortKeepingTies := by
  intro l
  refine ⟨List.perm_insertionSort scoreGE l, ?_⟩
  have h := List.sorted_insertionSort scoreGE l
  exact List.Pairwise.imp (fun {a b} hab => (not_score_gt_iff a b).mpr hab) h

theorem sortReversingTies_contract : SortsByScore sortReversingTies := by
  intro l
  refine ⟨(List.perm_insertionSort scoreGE l.reverse).trans (List.reverse_perm l), ?_⟩
  have h := List.sorted_insertionSort scoreGE l.reverse
  exact List.Pairwise.imp (fun {a b} hab => (not_score_gt_iff a b).mpr hab) h

theorem sortReversingTies_pair (a b : FrequencyStats) (h : a.activityScore = b.activityScore) :
    sortReversingTies [a, b] = [b, a] := by
  have hge : scoreGE b a := by unfold scoreGE; rw [h]
  simp [sortReversingTies, List.insertionSort, List.orderedInsert, hge]

theorem tiedCollector_map :
    tiedCollector.freqStatsMap =
      [(433000000,
          updateEntry { rssiWindow := [-80], windowSize := 10 }
            { frequency := 433000000, sampleCount := 1, lastSeen := 6 } 20),
        (434000000,
          updateEntry { rssiWindow := [-80], windowSize := 10 }
            { frequency := 434000000, sampleCount := 1, lastSeen := 6 } 20)] := by
  rfl

theorem tied_scores :
    (updateEntry { rssiWindow := [-80], windowSize := 10 }
        { frequency := 433000000, sampleCount := 1, lastSeen := 6 } 20).activityScore =
      (updateEntry { rssiWindow := [-80], windowSize := 10 }
        { frequency := 434000000, sampleCount := 1, lastSeen := 6 } 20).activityScore := by
  rfl

theorem mixedCollector_scores :
    mixedCollector.freqStatsMap.map (fun p => p.2.activityScore) =
      [4599967 / 6000000, 199997 / 400000, 1199987 / 2000000] := by
  have hmap : mixedCollector.freqStatsMap =
      [(433000000,
          updateEntry { rssiWindow := [-80, -60], windowSize := 10 }
            { frequency := 433000000, sampleCount := 2, packetCount := 2, lastSeen := 9 } 20),
        (434000000,
          updateEntry { rssiWindow := [-90], windowSize := 10 }
            { frequency := 434000000, sampleCount := 1, lastSeen := 5 } 20),
        (435000000,
          updateEntry { rssiWindow := [-70], windowSize := 10 }
            { frequency := 435000000, sampleCount := 1, lastSeen := 7 } 20)] := by
    rfl
  rw [hmap]
  norm_num [updateEntry, calculateActivityScore, calculateActivityScoreIn, activityWeightedSum,
    normalize, constrain, constrain_float, stdMin, stdMax, exactArith, subU32, toU32, toInt16,
    SlidingWindow.size, SlidingWindow.getAverage, SlidingWindow.getMax, SlidingWindow.getMin]


/-! ## The claims on the ranking -/

/-- C16: for every collector state, and every `std::sort` meeting its
contract, `getAllStats` returns a rearrangement of the values of the
per-frequency map, one entry per tracked frequency and `getFrequencyCount`
in all, in which `activityScore` never increases from first to last. -/
theorem getAllStats_sorted_rearrangement (sort : List FrequencyStats → List FrequencyStats)
    (hsort : SortsByScore sort) (C : StatisticsCollector) :
    (StatisticsCollector.getAllStats sort C).Perm (C.freqStatsMap.map Prod.snd) ∧
      (StatisticsCollector.getAllStats sort C).length = C.getFrequencyCount ∧
      (StatisticsCollector.getAllStats sort C).Pairwise
        fun a b => b.activityScore ≤ a.activityScore := by
  obtain ⟨hperm, hsorted⟩ := hsort (C.freqStatsMap.map Prod.snd)
  refine ⟨hperm, ?_, ?_⟩
  · unfold StatisticsCollector.getAllStats StatisticsCollector.getFrequencyCount
    rw [hperm.length_eq, List.length_map]
  · exact List.Pairwise.imp (fun {a b} hab => not_lt.mp hab) hsorted

/-- Witness for C16: the three frequencies of the mixed samples come back
as three entries in non-increasing score order. -/
theorem getAllStats_sorted_rearrangement_witness :
    SortsByScore sortKeepingTies ∧
      (StatisticsCollector.getAllStats sortKeepingTies mixedCollector).length = 3 ∧
      (StatisticsCollector.getAllStats sortKeepingTies mixedCollector).Pairwise
        fun a b => b.activityScore ≤ a.activityScore :=
  ⟨sortKeepingTies_contract,
    (getAllStats_sorted_rearrangement sortKeepingTies sortKeepingTies_contract
      mixedCollector).2.1.trans rfl,
    (getAllStats_sorted_rearrangement sortKeepingTies sortKeepingTies_contract
      mixedCollector).2.2⟩

/-- C17 as stated fails: `std::sort` is not a stable sort.  With a sort that
meets its contract and reverses ties, the two frequencies of the twin
samples, which score alike, come back as 434.0 MHz before 433.0 MHz. -/
theorem ties_not_in_frequency_order :
    SortsByScore sortReversingTies ∧
      ∃ a b, StatisticsCollector.getAllStats sortReversingTies tiedCollector = [a, b] ∧
        a.activityScore = b.activityScore ∧
        a.frequency = 434000000 ∧ b.frequency = 433000000 := by
  refine ⟨sortReversingTies_contract, _, _, ?_, tied_scores.symm, ?_, ?_⟩
  · unfold StatisticsCollector.getAllStats
    rw [tiedCollector_map]
    exact sortReversingTies_pair _ _ tied_scores
  · rfl
  · rfl

/-- C17, amended: for every collector state in which no two tracked entries
have the same `activityScore`, `getAllStats` returns the same sequence
whatever `std::sort` meeting its contract is used, in strictly decreasing
score order; the order of entries of equal score is left to `std::sort`. -/
theorem getAllStats_determined_without_ties
    (sort1 sort2 : List FrequencyStats → List FrequencyStats)
    (h1 : SortsByScore sort1) (h2 : SortsByScore sort2) (C : StatisticsCollector)
    (hdistinct : (C.freqStatsMap.map fun p => p.2.activityScore).Nodup) :
    StatisticsCollector.getAllStats sort1 C = StatisticsCollector.getAllStats sort2 C ∧
      (StatisticsCollector.getAllStats sort1 C).Pairwise
        fun a b => b.activityScore < a.activityScore := by
  unfold StatisticsCollector.getAllStats
  obtain ⟨hp1, hs1⟩ := h1 (C.freqStatsMap.map Prod.snd)
  obtain ⟨hp2, hs2⟩ := h2 (C.freqStatsMap.map Prod.snd)
  have hnd : ((C.freqStatsMap.map Prod.snd).map fun st => st.activityScore).Nodup := by
    rw [List.map_map]
    exact hdistinct
  have hs1' : (sort1 (C.freqStatsMap.map Prod.snd)).Pairwise scoreGE :=
    List.Pairwise.imp (fun {a b} hab => (not_score_gt_iff a b).mp hab) hs1
  have hs2' : (sort2 (C.freqStatsMap.map Prod.snd)).Pairwise scoreGE :=
    List.Pairwise.imp (fun {a b} hab => (not_score_gt_iff a b).mp hab) hs2
  constructor
  · refine List.Perm.eq_of_sorted ?_ hs1' hs2' (hp1.trans hp2.symm)
    intro a b ha hb hab hba
    exact List.inj_on_of_nodup_map hnd (hp1.subset ha) (hp2.subset hb)
      (le_antisymm hba hab)
  · have hnd1 : ((sort1 (C.freqStatsMap.map Prod.snd)).map fun st => st.activityScore).Nodup :=
      ((hp1.map _).nodup_iff).mpr hnd
    have hne : (sort1 (C.freqStatsMap.map Prod.snd)).Pairwise
        fun a b => a.activityScore ≠ b.activityScore := by
      unfold List.Nodup at hnd1
      rw [List.pairwise_map] at hnd1
      exact hnd1
    exact List.Pairwise.imp₂ (fun a b hge hne => lt_of_le_of_ne hge (Ne.symm hne)) hs1' hne

/-- Witness for C17, amended: the three frequencies of the mixed samples
score differently, and come back in the same order from the two sorts. -/
theorem getAllStats_determined_without_ties_witness :
    SortsByScore sortKeepingTies ∧ SortsByScore sortReversingTies ∧
      (mixedCollector.freqStatsMap.map fun p => p.2.activityScore).Nodup ∧
      StatisticsCollector.getAllStats sortKeepingTies mixedCollector =
        StatisticsCollector.getAllStats sortReversingTies mixedCollector :=
  ⟨sortKeepingTies_contract, sortReversingTies_contract,
    by rw [mixedCollector_scores]; norm_num,
    (getAllStats_determined_without_ties sortKeepingTies sortReversingTies
      sortKeepingTies_contract sortReversingTies_contract mixedCollector
      (by rw [mixedCollector_scores]; norm_num)).1⟩


/-! ## The claims on `init` and `start` -/

/-- C19 as stated fails: with an adapter that initialises, a non-empty
frequency list and the cursor in range, `init` still returns false when the
adapter refuses `setFrequency`. -/
theorem init_fails_when_tuning_fails :
    untunedListener.lora = some { setFrequencyOk := false } ∧
      scenarioListener.config.frequencies ≠ [] ∧
      scenarioListener.config.currentFreqIndex < scenarioListener.config.frequencies.length ∧
      untunedListener.init scenarioListener.config =
        Except.ok ({ untunedListener with config := scenarioListener.config }, false) := by
  decide

/-- C19, amended: `init` stores the configuration and returns false when the
adapter is absent, when the adapter fails to initialise, and when the
frequency list is empty; with an adapter that initialises and the cursor in
range of the list it returns the result of the adapter's `setFrequency`,
whatever `setBandwidth`, `setSpreadingFactor` and `setCodingRate` answer. -/
theorem init_result (L : FrequencyListener) (cfg : ListenerConfig) :
    (L.lora = none → L.init cfg = Except.ok ({ L with config := cfg }, false)) ∧
      (∀ a, L.lora = some a → a.initOk = false →
        L.init cfg = Except.ok ({ L with config := cfg }, false)) ∧
      (∀ a, L.lora = some a → cfg.frequencies = [] →
        L.init cfg = Except.ok ({ L with config := cfg }, false)) ∧
      (∀ a, L.lora = some a → a.initOk = true →
        cfg.currentFreqIndex < cfg.frequencies.length →
        L.init cfg = Except.ok ({ L with config := cfg }, a.setFrequencyOk)) := by
  refine ⟨?_, ?_, ?_, ?_⟩
  · intro h
    simp [FrequencyListener.init, h]
  · intro a h hi
    simp [FrequencyListener.init, h, hi]
  · intro a h he
    cases hi : a.initOk <;> simp [FrequencyListener.init, h, hi, he]
  · intro a h hi hb
    have hne : cfg.frequencies.isEmpty = false := isEmpty_false_of_lt _ _ hb
    unfold FrequencyListener.init vecAt
    simp only [h, hi, hne]
    rw [List.getElem?_eq_getElem hb]
    cases hs : a.setFrequencyOk <;>
      simp [bind, Except.bind, FrequencyListener.setFrequency, h, hs]

/-- Witness for C19, amended: on the scenario configuration `init` returns
false without an adapter and with an adapter that fails to initialise, false
on an empty list, and true with an adapter that tunes but refuses bandwidth,
spreading factor and coding rate. -/
theorem init_result_witness :
    scenarioListener.init scenarioListener.config =
        Except.ok ({ scenarioListener with config := scenarioListener.config }, false) ∧
      deadAdapterListener.init scenarioListener.config =
        Except.ok ({ deadAdapterListener with config := scenarioListener.config }, false) ∧
      looseAdapterListener.init {} =
        Except.ok ({ looseAdapterListener with config := {} }, false) ∧
      looseAdapterListener.init scenarioListener.config =
        Except.ok ({ looseAdapterListener with config := scenarioListener.config }, true) :=
  ⟨(init_result scenarioListener scenarioListener.config).1 rfl,
    (init_result deadAdapterListener scenarioListener.config).2.1 _ rfl rfl,
    (init_result looseAdapterListener {}).2.2.1 _ rfl rfl,
    (init_result looseAdapterListener scenarioListener.config).2.2.2 _ rfl rfl (by decide)⟩

/-- C20, the code at the failing input: `init` returns false with an adapter
that fails to initialise, and `start` on that listener, as on a listener
whose `init` was never called, sets `isListening`, so `isRunning` is true,
and creates the scan task. -/
theorem start_runs_after_failed_init :
    (∃ L1, deadAdapterListener.init scenarioListener.config = Except.ok (L1, false) ∧
        (L1.start (some 1)).1.isRunning = true ∧ (L1.start (some 1)).2 = true) ∧
      (deadAdapterListener.start (some 1)).1.isRunning = true ∧
      (deadAdapterListener.start (some 1)).2 = true := by
  refine ⟨⟨{ deadAdapterListener with config := scenarioListener.config }, ?_, ?_, ?_⟩, ?_, ?_⟩ <;>
    decide


/-! ## Further claims on the listener -/

/-- C21, the code at the failing input: from cleared statistics, RxDone at
-120 dBm followed by RxDone at -70 dBm leaves `minRssi = -70`, not -120; the
update treats a stored -120 as "no minimum yet". -/
theorem minRssi_after_floor_then_higher :
    (scenarioListener.run
        [ListenerOp.rxDone 1 { rssi := -120 }, ListenerOp.rxDone 2 { rssi := -70 }]).map
        (fun M => (M.eventStats.rxDoneCount, M.eventStats.minRssi)) =
      Except.ok (2, -70) := by
  decide

/-- C22: for every listener state with the cursor in range,
`handleRxError` pushes one point with RSSI -120, length 0, type CrcError and
the frequency under the cursor (appended at the end when the history is
below `maxPoints`), adds one to `totalEvents` and `rxErrorCount` in
`uint32_t`, and leaves `rxDoneCount`, `avgRssi`, `minRssi` and `maxRssi` as
they were. -/
theorem handleRxError_effect (L : FrequencyListener) (now : Nat)
    (hb : L.config.currentFreqIndex < L.config.frequencies.length) :
    ∃ L1 fc, L.handleRxError now = Except.ok L1 ∧
      L.config.frequencies[L.config.currentFreqIndex]? = some fc ∧
      L1.radarPoints = pushPoint L.radarPoints L.config.maxPoints
        { timestamp := now, frequency := fc.frequency, rssi := -120, snr := -20,
          packetLength := 0, eventType := EventType.EVENT_RX_CRC_ERROR } ∧
      (L.radarPoints.length < L.config.maxPoints →
        L1.radarPoints = L.radarPoints ++
          [{ timestamp := now, frequency := fc.frequency, rssi := -120, snr := -20,
             packetLength := 0, eventType := EventType.EVENT_RX_CRC_ERROR }]) ∧
      L1.eventStats.totalEvents = (L.eventStats.totalEvents + 1) % 4294967296 ∧
      L1.eventStats.rxErrorCount = (L.eventStats.rxErrorCount + 1) % 4294967296 ∧
      L1.eventStats.rxDoneCount = L.eventStats.rxDoneCount ∧
      L1.eventStats.avgRssi = L.eventStats.avgRssi ∧
      L1.eventStats.minRssi = L.eventStats.minRssi ∧
      L1.eventStats.maxRssi = L.eventStats.maxRssi := by
  obtain ⟨L1, h1⟩ := handleRxError_defined L now hb
  obtain ⟨fc, hfc, _, hp, ht, hd, he, ha, hmin, hmax⟩ := handleRxError_cases L L1 now h1
  refine ⟨L1, fc, h1, hfc, hp, ?_, ht, he, hd, ha, hmin, hmax⟩
  intro hlt
  rw [hp]
  unfold pushPoint rxErrorPoint
  simp only [List.length_append, List.length_singleton]
  rw [if_neg (by omega)]

/-- Witness for C22: on the scenario listener a CrcError at clock reading 5
leaves one point at 433.0 MHz and the counts 1, 1, 0. -/
theorem handleRxError_effect_witness :
    scenarioListener.config.currentFreqIndex < scenarioListener.config.frequencies.length ∧
      ∃ L1, scenarioListener.handleRxError 5 = Except.ok L1 ∧
        L1.radarPoints = [rxErrorPoint 5 433000000] ∧
        L1.eventStats.totalEvents = 1 ∧ L1.eventStats.rxErrorCount = 1 ∧
        L1.eventStats.rxDoneCount = 0 := by
  obtain ⟨L1, fc, h1, hfc, _, happ, ht, he, hd, _⟩ :=
    handleRxError_effect scenarioListener 5 (by decide)
  have hfc2 : fc = { frequency := 433000000 } := by
    have : scenarioListener.config.frequencies[scenarioListener.config.currentFreqIndex]? =
        some { frequency := 433000000 } := by decide
    rw [this] at hfc
    exact (Option.some.inj hfc).symm
  subst hfc2
  exact ⟨by decide, L1, h1, happ (by decide), ht, he, hd⟩

/-- C23: on a listener that is running, `start` returns the listener as it
is and does not call `xTaskCreate`; so after any `start` a second `start`
changes nothing and creates no task. -/
theorem start_idempotent_while_running (L : FrequencyListener) (task : Option Nat) :
    (L.isRunning = true → L.start task = (L, false)) ∧
      ∀ first : Option Nat, (L.start first).1.isRunning = true ∧
        (L.start first).1.start task = ((L.start first).1, false) := by
  have key : ∀ M : FrequencyListener, M.isRunning = true → M.start task = (M, false) := by
    intro M h
    unfold FrequencyListener.isRunning at h
    unfold FrequencyListener.start
    rw [if_pos h]
  refine ⟨key L, fun first => ?_⟩
  have hrun : (L.start first).1.isRunning = true := by
    unfold FrequencyListener.start FrequencyListener.isRunning
    by_cases h : L.isListening = true
    · rw [if_pos h]; exact h
    · rw [if_neg h]
  exact ⟨hrun, key _ hrun⟩

/-- Witness for C23: `start` on the running scenario listener changes
nothing and creates no task. -/
theorem start_idempotent_while_running_witness :
    runningListener.isRunning = true ∧
      runningListener.start (some 2) = (runningListener, false) :=
  ⟨rfl, (start_idempotent_while_running runningListener (some 2)).1 rfl⟩

theorem length_progression (c : LoRaScopeConfig) (n : Nat) : (c.progression n).length = n := by
  simp [LoRaScopeConfig.progression]

/-- C27, the code at the failing input: on the 831 frequencies of the user
configuration `prevFrequency` moves the cursor from 0 to 830, and
`getCurrentFreqIndex`, whose result is a `uint8_t`, returns 62. -/
theorem getCurrentFreqIndex_truncates :
    userListener.config.frequencies.length = 831 ∧
      ∃ L1, userListener.prevFrequency = Except.ok L1 ∧
        L1.config.currentFreqIndex = 830 ∧ L1.getCurrentFreqIndex = 62 := by
  have hlen : userListener.config.frequencies.length = 831 := by
    simp only [userListener]
    exact length_progression getUserConfig 831
  have hc : userListener.config.currentFreqIndex = 0 := rfl
  obtain ⟨L1, h1, hc1⟩ := retune_eq userListener 830 (by rw [hlen]; decide)
  refine ⟨hlen, L1, ?_, by rw [hc1], ?_⟩
  · unfold FrequencyListener.prevFrequency
    rw [isEmpty_false_of_lt _ 0 (by rw [hlen]; decide), hlen, hc]
    exact h1
  · unfold FrequencyListener.getCurrentFreqIndex
    rw [hc1]
    show 830 % 256 = 62
    decide


/-! ## The configuration expansion -/

theorem progression_succ (c : LoRaScopeConfig) (n freq : Nat) :
    (List.range (n + 1)).map (fun k => c.entry (freq + k * c.freqStepHz)) =
      c.entry freq ::
        (List.range n).map (fun k => c.entry (freq + c.freqStepHz + k * c.freqStepHz)) := by
  rw [List.range_succ_eq_map, List.map_cons, List.map_map]
  congr 1
  · simp
  · apply List.map_congr_left
    intro k _
    simp only [Function.comp]
    congr 1
    rw [Nat.succ_mul]
    omega

/-- The loop of `getFrequencies` from `freq` on, when the additions do not
wrap: it ends within `n + 1` tests with the `n` entries still due. -/
theorem getFrequenciesLoop_eq (c : LoRaScopeConfig) (hstep : 0 < c.freqStepHz)
    (hwrap : c.endFreqHz + c.freqStepHz < 4294967296) :
    ∀ (n fuel freq : Nat) (freqs : List FrequencyConfig), n < fuel →
      (freq ≤ c.endFreqHz → n = (c.endFreqHz - freq) / c.freqStepHz + 1) →
      (c.endFreqHz < freq → n = 0) →
      c.getFrequenciesLoop fuel freq freqs =
        some (freqs ++ (List.range n).map fun k => c.entry (freq + k * c.freqStepHz)) := by
  intro n
  induction n with
  | zero =>
    intro fuel freq freqs hfuel hle _
    cases fuel with
    | zero => omega
    | succ fuel =>
      have hgt : ¬ freq ≤ c.endFreqHz := fun h => Nat.succ_ne_zero _ (hle h).symm
      simp [LoRaScopeConfig.getFrequenciesLoop, hgt]
  | succ n ih =>
    intro fuel freq freqs hfuel hle hgt
    cases fuel with
    | zero => omega
    | succ fuel =>
      have hfe : freq ≤ c.endFreqHz := by
        by_contra h
        exact Nat.succ_ne_zero _ (hgt (by omega))
      have hn := hle hfe
      simp only [LoRaScopeConfig.getFrequenciesLoop]
      rw [if_pos hfe, Nat.mod_eq_of_lt (by omega)]
      rw [ih fuel (freq + c.freqStepHz) (freqs ++ [c.entry freq]) (by omega) ?_ ?_]
      · rw [progression_succ, List.append_assoc]
        rfl
      · intro hle2
        have hd : (c.endFreqHz - freq) / c.freqStepHz =
            (c.endFreqHz - freq - c.freqStepHz) / c.freqStepHz + 1 := by
          rw [Nat.div_eq (c.endFreqHz - freq) c.freqStepHz]
          rw [if_pos ⟨hstep, by omega⟩]
        have he : c.endFreqHz - (freq + c.freqStepHz) = c.endFreqHz - freq - c.freqStepHz := by
          omega
        rw [he]
        rw [hd] at hn
        exact Nat.succ.inj hn
      · intro hgt2
        have hd : (c.endFreqHz - freq) / c.freqStepHz = 0 :=
          Nat.div_eq_of_lt (by omega)
        rw [hd] at hn
        exact Nat.succ.inj hn

/-- C25: for every configuration with `freqStepHz > 0`,
`startFreqHz ≤ endFreqHz` and `endFreqHz + freqStepHz < 2^32`,
`getFrequencies` ends within `n + 1` loop tests, `n` being
`(endFreqHz - startFreqHz) / freqStepHz + 1`, and returns the `n` entries of
the arithmetic progression: the `k`-th has frequency
`startFreqHz + k * freqStepHz`, the frequencies increase strictly and none
exceeds `endFreqHz`; with `startFreqHz > endFreqHz` it returns the empty
list at the first test. -/
theorem getFrequencies_progression (c : LoRaScopeConfig) (fuel : Nat) :
    (0 < c.freqStepHz → c.startFreqHz ≤ c.endFreqHz →
        c.endFreqHz + c.freqStepHz < 4294967296 →
        (c.endFreqHz - c.startFreqHz) / c.freqStepHz + 1 < fuel →
        c.getFrequencies fuel =
            some (c.progression ((c.endFreqHz - c.startFreqHz) / c.freqStepHz + 1)) ∧
          (c.progression ((c.endFreqHz - c.startFreqHz) / c.freqStepHz + 1)).length =
            (c.endFreqHz - c.startFreqHz) / c.freqStepHz + 1 ∧
          (∀ k, k < (c.endFreqHz - c.startFreqHz) / c.freqStepHz + 1 →
            ((c.progression ((c.endFreqHz - c.startFreqHz) / c.freqStepHz + 1))[k]?).map
                (fun fc => fc.frequency) = some (c.startFreqHz + k * c.freqStepHz)) ∧
          (c.progression ((c.endFreqHz - c.startFreqHz) / c.freqStepHz + 1)).Pairwise
            (fun a b => a.frequency < b.frequency) ∧
          ∀ fc ∈ c.progression ((c.endFreqHz - c.startFreqHz) / c.freqStepHz + 1),
            fc.frequency ≤ c.endFreqHz) ∧
      (c.endFreqHz < c.startFreqHz → 0 < fuel → c.getFrequencies fuel = some []) := by
  constructor
  · intro hstep hle hwrap hfuel
    refine ⟨?_, length_progression _ _, ?_, ?_, ?_⟩
    · unfold LoRaScopeConfig.getFrequencies
      rw [getFrequenciesLoop_eq c hstep hwrap _ fuel c.startFreqHz [] hfuel (fun _ => rfl)
        (fun h => by omega)]
      rfl
    · intro k hk
      simp [LoRaScopeConfig.progression, List.getElem?_range hk, LoRaScopeConfig.entry]
    · unfold LoRaScopeConfig.progression
      rw [List.pairwise_map]
      refine (List.pairwise_lt_range _).imp ?_
      intro i j hij
      show c.startFreqHz + i * c.freqStepHz < c.startFreqHz + j * c.freqStepHz
      have := Nat.mul_lt_mul_of_lt_of_le hij (le_refl c.freqStepHz) hstep
      omega
    · intro fc hfc
      simp only [LoRaScopeConfig.progression, List.mem_map, List.mem_range] at hfc
      obtain ⟨k, hk, rfl⟩ := hfc
      show c.startFreqHz + k * c.freqStepHz ≤ c.endFreqHz
      have h1 : k ≤ (c.endFreqHz - c.startFreqHz) / c.freqStepHz := Nat.lt_succ_iff.mp hk
      have h2 : k * c.freqStepHz ≤ (c.endFreqHz - c.startFreqHz) / c.freqStepHz * c.freqStepHz :=
        Nat.mul_le_mul_right _ h1
      have h3 := Nat.div_mul_le_self (c.endFreqHz - c.startFreqHz) c.freqStepHz
      omega
  · intro hgt hfuel
    cases fuel with
    | zero => omega
    | succ fuel =>
      have : ¬ c.startFreqHz ≤ c.endFreqHz := by omega
      simp [LoRaScopeConfig.getFrequencies, LoRaScopeConfig.getFrequenciesLoop, this]

/-- Witness for C25: the user configuration 410125000..493125000 in steps of
100000 expands to the 831 entries of its progression; a reversed range
expands to nothing. -/
theorem getFrequencies_progression_witness :
    getUserConfig.getFrequencies 832 = some (getUserConfig.progression 831) ∧
      (getUserConfig.progression 831).length = 831 ∧
      ({ startFreqHz := 2, endFreqHz := 1 } : LoRaScopeConfig).getFrequencies 1 = some [] :=
  ⟨((getFrequencies_progression getUserConfig 832).1 (by decide) (by decide) (by decide)
      (by decide)).1,
    ((getFrequencies_progression getUserConfig 832).1 (by decide) (by decide) (by decide)
      (by decide)).2.1,
    (getFrequencies_progression { startFreqHz := 2, endFreqHz := 1 } 1).2 (by decide)
      (by decide)⟩


/-! ## Further lemmas on the statistics collector -/

theorem mapFind_mapErase {V : Type} (m : List (Nat × V)) (k f : Nat) :
    mapFind (mapErase m k) f = if f = k then none else mapFind m f := by
  induction m with
  | nil => simp [mapErase, mapFind]
  | cons p rest ih =>
    obtain ⟨k2, v2⟩ := p
    unfold mapErase at ih ⊢
    by_cases h2 : k2 = k
    · rw [List.filter_cons_of_neg (by simp [h2]), ih, mapFind_cons]
      by_cases hf : f = k
      · simp [hf]
      · have : ¬ k2 = f := fun e => hf (e.symm.trans h2)
        simp [hf, this]
    · rw [List.filter_cons_of_pos (by simp [h2]), mapFind_cons, mapFind_cons, ih]
      by_cases hf : f = k
      · have : ¬ k2 = f := fun e => h2 (e.trans hf)
        simp [hf, this, h2]
      · simp [hf]

theorem mem_mapErase {V : Type} (m : List (Nat × V)) (k : Nat) (q : Nat × V)
    (hq : q ∈ mapErase m k) : q ∈ m :=
  (List.mem_filter.mp hq).1

/-- The windows after the first loop of `cleanup`: gone for every key with an
evicted entry. -/
theorem cleanupStats_snd_evicted (maxAgeMs currentTime : Nat)
    (m : List (Nat × FrequencyStats)) (ws : List (Nat × SlidingWindow)) (f : Nat)
    (h : ∃ p ∈ m, p.1 = f ∧ subU32 currentTime p.2.lastSeen > maxAgeMs) :
    mapFind (cleanupStats maxAgeMs currentTime m ws).2 f = none := by
  induction m generalizing ws with
  | nil => obtain ⟨p, hp, _⟩ := h; cases hp
  | cons a rest ih =>
    obtain ⟨p, hp, hpf, hst⟩ := h
    simp only [cleanupStats]
    by_cases ha : subU32 currentTime a.2.lastSeen > maxAgeMs
    · rw [if_pos ha]
      rcases List.mem_cons.mp hp with rfl | hp
      · have hsub : ∀ (l : List (Nat × FrequencyStats)) (w : List (Nat × SlidingWindow)),
            mapFind w f = none →
              mapFind (cleanupStats maxAgeMs currentTime l w).2 f = none := by
          intro l
          induction l with
          | nil => intro w hw; exact hw
          | cons b l ihl =>
            intro w hw
            simp only [cleanupStats]
            split
            · exact ihl _ (by rw [mapFind_mapErase, hw]; simp)
            · exact ihl _ hw
        exact hsub rest _ (by rw [mapFind_mapErase, if_pos hpf.symm])
      · exact ih _ ⟨p, hp, hpf, hst⟩
    · rw [if_neg ha]
      rcases List.mem_cons.mp hp with rfl | hp
      · exact absurd hst ha
      · exact ih _ ⟨p, hp, hpf, hst⟩

/-- The windows after the first loop of `cleanup`: untouched for every key
without an evicted entry. -/
theorem cleanupStats_snd_kept (maxAgeMs currentTime : Nat)
    (m : List (Nat × FrequencyStats)) (ws : List (Nat × SlidingWindow)) (f : Nat)
    (h : ∀ p ∈ m, p.1 = f → ¬ subU32 currentTime p.2.lastSeen > maxAgeMs) :
    mapFind (cleanupStats maxAgeMs currentTime m ws).2 f = mapFind ws f := by
  induction m generalizing ws with
  | nil => rfl
  | cons a rest ih =>
    have hrest : ∀ p ∈ rest, p.1 = f → ¬ subU32 currentTime p.2.lastSeen > maxAgeMs :=
      fun p hp => h p (List.mem_cons_of_mem _ hp)
    simp only [cleanupStats]
    by_cases ha : subU32 currentTime a.2.lastSeen > maxAgeMs
    · rw [if_pos ha, ih _ hrest, mapFind_mapErase]
      have hne : ¬ f = a.1 := fun e => h a (List.mem_cons_self _ _) e.symm ha
      rw [if_neg hne]
    · rw [if_neg ha]
      exact ih _ hrest

theorem cleanupStats_snd_mem (maxAgeMs currentTime : Nat)
    (m : List (Nat × FrequencyStats)) (ws : List (Nat × SlidingWindow)) (q : Nat × SlidingWindow)
    (hq : q ∈ (cleanupStats maxAgeMs currentTime m ws).2) : q ∈ ws := by
  induction m generalizing ws with
  | nil => exact hq
  | cons a rest ih =>
    simp only [cleanupStats] at hq
    split at hq
    · exact mem_mapErase _ _ _ (ih _ hq)
    · exact ih _ hq

/-- In a map with ascending keys every entry is the one found under its
key. -/
theorem mapFind_of_mem {V : Type} (m : List (Nat × V)) (p : Nat × V)
    (hasc : m.Pairwise fun a b => a.1 < b.1) (hp : p ∈ m) : mapFind m p.1 = some p.2 := by
  induction m with
  | nil => cases hp
  | cons a rest ih =>
    obtain ⟨k2, v2⟩ := a
    rw [List.pairwise_cons] at hasc
    rw [mapFind_cons]
    rcases List.mem_cons.mp hp with rfl | hp
    · rw [if_pos rfl]
    · have hlt : k2 < p.1 := hasc.1 p hp
      rw [if_neg (by omega)]
      exact ih hasc.2 hp

/-! ## Further claims on the statistics collector -/

/-- C24: for every collector state whose per-frequency map has its keys in
ascending order, as a `std::map` has, `cleanup` drops a tracked frequency
exactly when `now - lastSeen > maxAgeMs`: a frequency within the age keeps
its `FrequencyStats` and its sliding window as they were, an older one loses
both, no entry appears, and the recent samples kept are those within the age
in their former order. -/
theorem cleanup_evicts_exactly_stale (C : StatisticsCollector) (maxAgeMs now : Nat)
    (hasc : C.freqStatsMap.Pairwise fun a b => a.1 < b.1) :
    (∀ f st, C.getStats f = some st →
        (¬ subU32 now st.lastSeen > maxAgeMs →
          (C.cleanup maxAgeMs now).getStats f = some st ∧
            mapFind (C.cleanup maxAgeMs now).rssiWindows f = mapFind C.rssiWindows f) ∧
        (subU32 now st.lastSeen > maxAgeMs →
          (C.cleanup maxAgeMs now).getStats f = none ∧
            mapFind (C.cleanup maxAgeMs now).rssiWindows f = none)) ∧
      (∀ f, C.getStats f = none → (C.cleanup maxAgeMs now).getStats f = none) ∧
      (C.cleanup maxAgeMs now).recentSamples =
        C.recentSamples.filter (fun s => !decide (subU32 now s.timestamp > maxAgeMs)) ∧
      (C.cleanup maxAgeMs now).recentSamples.Sublist C.recentSamples := by
  have hfind : ∀ f, (C.cleanup maxAgeMs now).getStats f =
      (C.getStats f).filter fun v => !decide (subU32 now v.lastSeen > maxAgeMs) := by
    intro f
    simp only [StatisticsCollector.cleanup, StatisticsCollector.getStats]
    rw [cleanupStats_fst]
    exact mapFind_filter C.freqStatsMap
      (fun v => !decide (subU32 now v.lastSeen > maxAgeMs)) f hasc
  have hsame : ∀ f st, C.getStats f = some st → ∀ p ∈ C.freqStatsMap, p.1 = f → p.2 = st := by
    intro f st hst p hp hpf
    have := mapFind_of_mem C.freqStatsMap p hasc hp
    rw [hpf] at this
    unfold StatisticsCollector.getStats at hst
    rw [hst] at this
    exact (Option.some.inj this).symm
  refine ⟨?_, ?_, ?_, ?_⟩
  · intro f st hst
    constructor
    · intro hfresh
      refine ⟨by rw [hfind, hst]; simp [Option.filter, hfresh], ?_⟩
      simp only [StatisticsCollector.cleanup]
      refine cleanupStats_snd_kept maxAgeMs now _ _ f ?_
      intro p hp hpf
      rw [hsame f st hst p hp hpf]
      exact hfresh
    · intro hstale
      refine ⟨by rw [hfind, hst]; simp [Option.filter, hstale], ?_⟩
      simp only [StatisticsCollector.cleanup]
      have hmem : ∃ p ∈ C.freqStatsMap, p.1 = f := by
        by_contra hno
        have : mapFind C.freqStatsMap f = none :=
          (mapFind_eq_none_iff _ f).mpr fun p hp hpf => hno ⟨p, hp, hpf⟩
        unfold StatisticsCollector.getStats at hst
        rw [this] at hst
        cases hst
      obtain ⟨p, hp, hpf⟩ := hmem
      refine cleanupStats_snd_evicted maxAgeMs now _ _ f ⟨p, hp, hpf, ?_⟩
      rw [hsame f st hst p hp hpf]
      exact hstale
  · intro f hnone
    rw [hfind, hnone]
    rfl
  · simp only [StatisticsCollector.cleanup]
    exact cleanupSamples_eq _ _ _
  · simp only [StatisticsCollector.cleanup]
    rw [cleanupSamples_eq]
    exact List.filter_sublist _

/-- C26, the code at the failing input: after ten samples of -90 dBm and
`updateStatistics` the entry has `minRssi = -90`, `avgRssi = -26305` and
`maxRssi = -90`, so the average is below the minimum. -/
theorem avgRssi_below_minRssi :
    (((({} : StatisticsCollector).addSamples tenSamples).updateStatistics
        fun _ => 20).getStats 433000000).map
        (fun st => (st.minRssi, st.avgRssi, st.maxRssi)) = some (-90, -26305, -90) := by
  decide


/-- Witness for C24: at clock reading 10 with `maxAgeMs = 3`, 434.0 MHz (last
seen at 5) loses its entry and its window, 433.0 MHz (last seen at 9) keeps
both. -/
theorem cleanup_evicts_exactly_stale_witness :
    (agedCollector.freqStatsMap.Pairwise fun a b => a.1 < b.1) ∧
      (agedCollector.cleanup 3 10).getStats 434000000 = none ∧
      mapFind (agedCollector.cleanup 3 10).rssiWindows 434000000 = none ∧
      (agedCollector.cleanup 3 10).getStats 433000000 = agedCollector.getStats 433000000 ∧
      mapFind (agedCollector.cleanup 3 10).rssiWindows 433000000 =
        mapFind agedCollector.rssiWindows 433000000 := by
  have hasc : agedCollector.freqStatsMap.Pairwise fun a b => a.1 < b.1 := by decide
  have h := (cleanup_evicts_exactly_stale agedCollector 3 10 hasc).1
  have h434 : agedCollector.getStats 434000000 =
      some { frequency := 434000000, sampleCount := 1, lastSeen := 5 } := rfl
  have h433 : agedCollector.getStats 433000000 =
      some { frequency := 433000000, sampleCount := 2, packetCount := 2, lastSeen := 9 } := rfl
  have e434 := (h 434000000 _ h434).2 (by decide)
  have e433 := (h 433000000 _ h433).1 (by decide)
  exact ⟨hasc, e434.1, e434.2, e433.1.trans h433.symm, e433.2⟩

theorem pushEvict_length {α : Type} (q : List α) (cap : Nat) (x : α) (hcap : 1 ≤ cap)
    (hq : q.length ≤ cap) :
    1 ≤ (pushEvict q cap x).length ∧ (pushEvict q cap x).length ≤ cap := by
  unfold pushEvict
  simp only [List.length_append, List.length_singleton]
  split
  · simp only [List.length_tail, List.length_append, List.length_singleton]
    omega
  · simp only [List.length_append, List.length_singleton]
    omega

theorem mem_mapAt {V : Type} (m : List (Nat × V)) (k : Nat) (dflt : V) (f : V → V)
    (q : Nat × V) (hq : q ∈ mapAt m k dflt f) :
    q ∈ m ∨ (∃ p ∈ m, q = (p.1, f p.2)) ∨ q = (k, f dflt) := by
  unfold mapAt at hq
  cases hk : mapFind m k with
  | none =>
    rw [hk] at hq
    rcases mem_mapInsert m k _ q hq with h | h
    · exact Or.inr (Or.inr h)
    · exact Or.inl h
  | some v =>
    rw [hk] at hq
    simp only [List.mem_map] at hq
    obtain ⟨p, hp, hpq⟩ := hq
    by_cases hpk : p.1 = k
    · rw [if_pos hpk] at hpq
      exact Or.inr (Or.inl ⟨p, hp, hpq.symm⟩)
    · rw [if_neg hpk] at hpq
      exact Or.inl (hpq ▸ hp)

theorem mapAt_id {V : Type} (m : List (Nat × V)) (k : Nat) (dflt v : V)
    (hk : mapFind m k = some v) : mapAt m k dflt id = m := by
  unfold mapAt
  rw [hk]
  simp only
  conv => rhs; rw [← List.map_id m]
  apply List.map_congr_left
  intro p _
  by_cases hp : p.1 = k
  · rw [if_pos hp]
    exact Prod.ext rfl rfl
  · rw [if_neg hp]
    rfl

theorem foldl_mapAt_id {V : Type} (dflt : V) (l : List (Nat × FrequencyStats))
    (ws : List (Nat × V)) (h : ∀ p ∈ l, mapFind ws p.1 ≠ none) :
    l.foldl (fun w p => mapAt w p.1 dflt id) ws = ws := by
  induction l with
  | nil => rfl
  | cons a rest ih =>
    simp only [List.foldl_cons]
    have ha := h a (List.mem_cons_self _ _)
    cases hf : mapFind ws a.1 with
    | none => exact absurd hf ha
    | some v =>
      rw [mapAt_id ws a.1 dflt v hf]
      exact ih fun p hp => h p (List.mem_cons_of_mem _ hp)

theorem mem_of_mapFind {V : Type} (m : List (Nat × V)) (k : Nat) (v : V)
    (h : mapFind m k = some v) : (k, v) ∈ m := by
  induction m with
  | nil => cases h
  | cons a rest ih =>
    obtain ⟨k2, v2⟩ := a
    rw [mapFind_cons] at h
    by_cases hk : k2 = k
    · rw [if_pos hk] at h
      cases h
      rw [hk]
      exact List.mem_cons_self _ _
    · rw [if_neg hk] at h
      exact List.mem_cons_of_mem _ (ih h)

theorem mapFind_ne_none_of_mem {V : Type} (m : List (Nat × V)) (p : Nat × V) (hp : p ∈ m) :
    mapFind m p.1 ≠ none := by
  intro h
  exact (mapFind_eq_none_iff m p.1).mp h p hp rfl

/-- Every call keeps the shape of the two maps. -/
theorem call_windowsMatch (C : StatisticsCollector) (op : CollectorOp)
    (h : C.WindowsMatch) : (C.call op).WindowsMatch := by
  obtain ⟨hasc, hkeys, hsize⟩ := h
  cases op with
  | addSample s =>
    refine ⟨mapAt_ascending _ _ _ _ hasc, ?_, ?_⟩
    · intro f
      simp only [StatisticsCollector.call, StatisticsCollector.addSample]
      rw [mapFind_mapAt, mapFind_mapAt]
      by_cases hf : f = s.frequency
      · simp [hf]
      · simp only [hf, if_false]
        exact hkeys f
    · intro q hq
      simp only [StatisticsCollector.call, StatisticsCollector.addSample] at hq
      rcases mem_mapAt _ _ _ _ q hq with hq | ⟨p, hp, rfl⟩ | rfl
      · exact hsize q hq
      · obtain ⟨h1, _, h3⟩ := hsize p hp
        have := pushEvict_length p.2.rssiWindow p.2.windowSize s.rssi (by omega) (by omega)
        rw [h1] at this
        refine ⟨h1, ?_, ?_⟩
        · show 1 ≤ (pushEvict p.2.rssiWindow p.2.windowSize s.rssi).length
          rw [h1]; exact this.1
        · show (pushEvict p.2.rssiWindow p.2.windowSize s.rssi).length ≤ 10
          rw [h1]; exact this.2
      · have := pushEvict_length ([] : List Int) 10 s.rssi (by decide) (by decide)
        exact ⟨rfl, this.1, this.2⟩
  | updateStatistics now =>
    have hws : C.freqStatsMap.foldl (fun w p => mapAt w p.1 ({} : SlidingWindow) id)
        C.rssiWindows = C.rssiWindows := by
      refine foldl_mapAt_id _ _ _ fun p hp => ?_
      intro hnone
      exact mapFind_ne_none_of_mem _ p hp ((hkeys p.1).mpr hnone)
    simp only [StatisticsCollector.call, StatisticsCollector.updateStatistics,
      StatisticsCollector.WindowsMatch]
    rw [hws]
    refine ⟨by rw [List.pairwise_map]; exact hasc, ?_, hsize⟩
    intro f
    rw [mapFind_map_values C.freqStatsMap
      (fun k st => updateEntry ((mapFind C.rssiWindows k).getD {}) st (now k)) f]
    rw [← hkeys f]
    cases mapFind C.freqStatsMap f <;> simp
  | cleanup maxAgeMs currentTime =>
    simp only [StatisticsCollector.call, StatisticsCollector.cleanup,
      StatisticsCollector.WindowsMatch]
    rw [cleanupStats_fst]
    refine ⟨hasc.filter _, ?_, fun q hq => hsize q (cleanupStats_snd_mem _ _ _ _ q hq)⟩
    intro f
    rw [mapFind_filter C.freqStatsMap
      (fun v => !decide (subU32 currentTime v.lastSeen > maxAgeMs)) f hasc]
    cases hst : mapFind C.freqStatsMap f with
    | none =>
      have hno : ∀ p ∈ C.freqStatsMap, p.1 = f →
          ¬ subU32 currentTime p.2.lastSeen > maxAgeMs :=
        fun p hp hpf => absurd hpf ((mapFind_eq_none_iff _ f).mp hst p hp)
      rw [cleanupStats_snd_kept _ _ _ _ f hno]
      simp only [Option.filter]
      exact ⟨fun _ => (hkeys f).mp hst, fun _ => trivial⟩
    | some st =>
      have hmem := mem_of_mapFind _ _ _ hst
      have hsame : ∀ p ∈ C.freqStatsMap, p.1 = f → p.2 = st := by
        intro p hp hpf
        have := mapFind_of_mem C.freqStatsMap p hasc hp
        rw [hpf, hst] at this
        exact (Option.some.inj this).symm
      have hwne : mapFind C.rssiWindows f ≠ none := by
        intro hn
        have := (hkeys f).mpr hn
        rw [hst] at this
        cases this
      by_cases hstale : subU32 currentTime st.lastSeen > maxAgeMs
      · rw [cleanupStats_snd_evicted _ _ _ _ f ⟨(f, st), hmem, rfl, hstale⟩]
        simp [Option.filter, hstale]
      · rw [cleanupStats_snd_kept _ _ _ _ f
          (fun p hp hpf => by rw [hsame p hp hpf]; exact hstale)]
        simp [Option.filter, hstale, hwne]
  | clear =>
    refine ⟨List.Pairwise.nil, fun f => ?_, fun q hq => ?_⟩
    · exact ⟨fun _ => rfl, fun _ => rfl⟩
    · cases hq

/-- Every sequence of calls on a new collector keeps the shape of the two
maps. -/
theorem run_windowsMatch (ops : List CollectorOp) :
    (({} : StatisticsCollector).run ops).WindowsMatch := by
  have gen : ∀ (l : List CollectorOp) (C : StatisticsCollector),
      C.WindowsMatch → (C.run l).WindowsMatch := by
    intro l
    induction l with
    | nil => intro C h; exact h
    | cons op rest ih =>
      intro C h
      exact ih (C.call op) (call_windowsMatch C op h)
  refine gen ops {} ⟨List.Pairwise.nil, fun f => ⟨fun _ => rfl, fun _ => rfl⟩, fun q hq => ?_⟩
  cases hq


/-- C28: after every sequence of `addSample`, `updateStatistics`, `cleanup`
and `clear` calls on a new collector (the lookups `getStats` and
`getAllStats` change nothing), the frequencies with a `FrequencyStats` entry
are those with a sliding window, every window holds between 1 and 10 values,
and so an `updateStatistics` gives every tracked frequency the average,
maximum and minimum of its non-empty window. -/
theorem stats_and_windows_agree (ops : List CollectorOp) :
    (∀ f, (∃ p ∈ (({} : StatisticsCollector).run ops).freqStatsMap, p.1 = f) ↔
        ∃ q ∈ (({} : StatisticsCollector).run ops).rssiWindows, q.1 = f) ∧
      (∀ q ∈ (({} : StatisticsCollector).run ops).rssiWindows,
        1 ≤ q.2.size ∧ q.2.size ≤ 10) ∧
      ∀ (now : Nat → Nat) (f : Nat) (st : FrequencyStats),
        ((({} : StatisticsCollector).run ops).updateStatistics now).getStats f = some st →
        ∃ w, mapFind (({} : StatisticsCollector).run ops).rssiWindows f = some w ∧
          w.rssiWindow ≠ [] ∧ st.avgRssi = w.getAverage ∧ st.maxRssi = w.getMax ∧
          st.minRssi = w.getMin := by
  obtain ⟨_, hkeys, hsize⟩ := run_windowsMatch ops
  have hex : ∀ {V : Type} (m : List (Nat × V)) (f : Nat),
      (∃ p ∈ m, p.1 = f) ↔ mapFind m f ≠ none := by
    intro V m f
    rw [Ne, mapFind_eq_none_iff]
    constructor
    · rintro ⟨p, hp, hpf⟩ hall
      exact hall p hp hpf
    · intro hnot
      by_contra hno
      exact hnot fun p hp hpf => hno ⟨p, hp, hpf⟩
  refine ⟨fun f => ?_, fun q hq => ⟨(hsize q hq).2.1, (hsize q hq).2.2⟩, ?_⟩
  · rw [hex, hex, Ne, Ne, hkeys f]
  · intro now f st hst
    rw [getStats_updateStatistics] at hst
    cases h0 : (({} : StatisticsCollector).run ops).getStats f with
    | none => rw [h0] at hst; cases hst
    | some st0 =>
      rw [h0] at hst
      simp only [Option.map_some', Option.some.injEq] at hst
      cases hw : mapFind (({} : StatisticsCollector).run ops).rssiWindows f with
      | none =>
        have := (hkeys f).mpr hw
        unfold StatisticsCollector.getStats at h0
        rw [h0] at this
        cases this
      | some w =>
        rw [hw] at hst
        simp only [Option.getD_some] at hst
        have hmem := mem_of_mapFind _ _ _ hw
        have hne : w.rssiWindow ≠ [] := by
          intro e
          have := (hsize _ hmem).2.1
          rw [show ((f, w) : Nat × SlidingWindow).2 = w from rfl, e] at this
          simp at this
        obtain ⟨h1, h2, h3, _⟩ := updateEntry_of_nonempty w st0 (now f) hne
        rw [hst] at h1 h2 h3
        exact ⟨w, rfl, hne, h1, h2, h3⟩

/-! ## Lemmas on the weighted sum -/

theorem constrain_unit (x : ℚ) :
    0 ≤ constrain x 0 1 ∧ constrain x 0 1 ≤ 1 ∧ (constrain x 0 1 = 1 ↔ 1 ≤ x) ∧
      (constrain x 0 1 = 0 ↔ x ≤ 0) := by
  unfold constrain
  by_cases h0 : x < 0
  · rw [if_pos h0]
    refine ⟨le_refl _, by norm_num, ?_, ?_⟩
    · constructor
      · intro h; norm_num at h
      · intro h; linarith
    · exact ⟨fun _ => le_of_lt h0, fun _ => rfl⟩
  · rw [if_neg h0]
    by_cases h1 : x > 1
    · rw [if_pos h1]
      refine ⟨by norm_num, le_refl _, ?_, ?_⟩
      · exact ⟨fun _ => le_of_lt h1, fun _ => rfl⟩
      · constructor
        · intro h; norm_num at h
        · intro h; linarith
    · rw [if_neg h1]
      push_neg at h0 h1
      refine ⟨h0, h1, ?_, ?_⟩
      · exact ⟨fun h => by rw [h], fun h => le_antisymm h1 h⟩
      · exact ⟨fun h => by rw [h], fun h => le_antisymm h h0⟩

theorem stdMin_one (y : ℚ) (hy : 0 ≤ y) :
    0 ≤ stdMin 1 y ∧ stdMin 1 y ≤ 1 ∧ (stdMin 1 y = 1 ↔ 1 ≤ y) := by
  unfold stdMin
  by_cases h : y < 1
  · rw [if_pos h]
    exact ⟨hy, le_of_lt h, fun e => by rw [e], fun e => absurd h (not_lt.mpr e)⟩
  · rw [if_neg h]
    exact ⟨by norm_num, le_refl _, fun _ => not_lt.mp h, fun _ => rfl⟩

theorem stdMax_zero (y : ℚ) (hy : y ≤ 1) :
    0 ≤ stdMax 0 y ∧ stdMax 0 y ≤ 1 ∧ (stdMax 0 y = 1 ↔ y = 1) := by
  unfold stdMax
  by_cases h : (0 : ℚ) < y
  · rw [if_pos h]
    exact ⟨le_of_lt h, hy, Iff.rfl⟩
  · rw [if_neg h]
    refine ⟨le_refl _, by norm_num, ?_⟩
    constructor
    · intro e; norm_num at e
    · intro e; rw [e] at h; norm_num at h

/-- The weighted sum of `calculateActivityScore` in exact arithmetic, written
out. -/
theorem activityWeightedSum_exact (stats : FrequencyStats) (now : Nat) :
    activityWeightedSum exactArith stats now =
      35 / 100 * constrain (((stats.avgRssi : ℚ) + 120) / 70) 0 1 +
        30 / 100 * stdMin 1 ((stats.packetCount : ℚ) / (stats.sampleCount : ℚ)) +
        20 / 100 * (1 - constrain ((((stats.maxRssi - stats.minRssi : Int) : ℚ)) / 30) 0 1) +
        15 / 100 * stdMax 0 (1 - ((subU32 now stats.lastSeen : Nat) : ℚ) / 300000) := by
  simp only [activityWeightedSum, normalize, exactArith]
  norm_num


theorem subU32_eq_zero_iff (a b : Nat) (ha : a < 4294967296) (hb : b < 4294967296) :
    subU32 a b = 0 ↔ a = b := by
  unfold subU32 toU32
  omega

/-! ## The claims on the activity score in exact arithmetic -/

/-- C29: in exact arithmetic, for every `FrequencyStats` with
`sampleCount > 0` and every clock reading, the weighted sum of
`calculateActivityScore` lies between 0 and 1, so `constrain_float` returns
it unchanged and it is the score; for `uint32_t` clock values it equals 1
exactly when `avgRssi ≥ -50`, `packetCount ≥ sampleCount`,
`maxRssi ≤ minRssi` and `now = lastSeen`. -/
theorem weighted_sum_needs_no_clamp (stats : FrequencyStats) (now : Nat)
    (hs : 0 < stats.sampleCount) :
    0 ≤ activityWeightedSum exactArith stats now ∧
      activityWeightedSum exactArith stats now ≤ 1 ∧
      constrain_float (activityWeightedSum exactArith stats now) 0 1 =
        activityWeightedSum exactArith stats now ∧
      calculateActivityScore stats now = activityWeightedSum exactArith stats now ∧
      (now < 4294967296 → stats.lastSeen < 4294967296 →
        (activityWeightedSum exactArith stats now = 1 ↔
          -50 ≤ stats.avgRssi ∧ stats.sampleCount ≤ stats.packetCount ∧
            stats.maxRssi ≤ stats.minRssi ∧ now = stats.lastSeen)) := by
  have hsq : (0 : ℚ) < (stats.sampleCount : ℚ) := by exact_mod_cast hs
  have hpq : (0 : ℚ) ≤ (stats.packetCount : ℚ) := by exact_mod_cast Nat.zero_le _
  have hage : (0 : ℚ) ≤ ((subU32 now stats.lastSeen : Nat) : ℚ) := by
    exact_mod_cast Nat.zero_le _
  obtain ⟨r0, r1, req, _⟩ := constrain_unit (((stats.avgRssi : ℚ) + 120) / 70)
  obtain ⟨p0, p1, peq⟩ :=
    stdMin_one ((stats.packetCount : ℚ) / (stats.sampleCount : ℚ)) (div_nonneg hpq (le_of_lt hsq))
  obtain ⟨c0, c1, _, ceq⟩ :=
    constrain_unit ((((stats.maxRssi - stats.minRssi : Int) : ℚ)) / 30)
  obtain ⟨f0, f1, feq⟩ :=
    stdMax_zero (1 - ((subU32 now stats.lastSeen : Nat) : ℚ) / 300000)
      (by
        have : (0 : ℚ) ≤ ((subU32 now stats.lastSeen : Nat) : ℚ) / 300000 :=
          div_nonneg hage (by norm_num)
        linarith)
  have hlo : 0 ≤ activityWeightedSum exactArith stats now := by
    rw [activityWeightedSum_exact]; linarith
  have hhi : activityWeightedSum exactArith stats now ≤ 1 := by
    rw [activityWeightedSum_exact]; linarith
  have hclamp : constrain_float (activityWeightedSum exactArith stats now) 0 1 =
      activityWeightedSum exactArith stats now := by
    unfold constrain_float
    rw [if_neg (not_lt.mpr hlo), if_neg (not_lt.mpr hhi)]
  refine ⟨hlo, hhi, hclamp, ?_, ?_⟩
  · unfold calculateActivityScore calculateActivityScoreIn
    rw [if_neg (by omega)]
    exact hclamp
  · intro hnow hls
    have hr : (1 : ℚ) ≤ ((stats.avgRssi : ℚ) + 120) / 70 ↔ -50 ≤ stats.avgRssi := by
      rw [le_div_iff₀ (by norm_num : (0 : ℚ) < 70)]
      constructor
      · intro h
        have : ((-50 : Int) : ℚ) ≤ (stats.avgRssi : ℚ) := by push_cast; linarith
        exact_mod_cast this
      · intro h
        have : ((-50 : Int) : ℚ) ≤ (stats.avgRssi : ℚ) := by exact_mod_cast h
        push_cast at this
        linarith
    have hp : (1 : ℚ) ≤ (stats.packetCount : ℚ) / (stats.sampleCount : ℚ) ↔
        stats.sampleCount ≤ stats.packetCount := by
      rw [le_div_iff₀ hsq, one_mul]
      exact Nat.cast_le
    have hc : (((stats.maxRssi - stats.minRssi : Int) : ℚ)) / 30 ≤ 0 ↔
        stats.maxRssi ≤ stats.minRssi := by
      rw [div_le_iff₀ (by norm_num : (0 : ℚ) < 30), zero_mul]
      constructor
      · intro h
        have : stats.maxRssi - stats.minRssi ≤ 0 := by exact_mod_cast h
        omega
      · intro h
        have : stats.maxRssi - stats.minRssi ≤ 0 := by omega
        exact_mod_cast this
    have hf : (1 - ((subU32 now stats.lastSeen : Nat) : ℚ) / 300000 = 1) ↔
        now = stats.lastSeen := by
      rw [← subU32_eq_zero_iff now stats.lastSeen hnow hls]
      constructor
      · intro h
        have h2 : ((subU32 now stats.lastSeen : Nat) : ℚ) / 300000 = 0 := by linarith
        have h3 : ((subU32 now stats.lastSeen : Nat) : ℚ) = 0 := by
          have := div_eq_zero_iff.mp h2
          rcases this with h | h
          · exact h
          · norm_num at h
        exact_mod_cast h3
      · intro h
        rw [h]
        norm_num
    rw [← hr, ← hp, ← hc, ← hf, ← req, ← peq, ← ceq, ← feq, activityWeightedSum_exact]
    constructor
    · intro h
      refine ⟨?_, ?_, ?_, ?_⟩ <;> linarith
    · rintro ⟨h1, h2, h3, h4⟩
      rw [h1, h2, h3, h4]
      norm_num

/-- Witness for C29: a frequency sampled three times scores 117/200 without
the clamp, and one with signal at -50 dBm, a packet with every sample, no
spread and seen at the clock reading scores 1. -/
theorem weighted_sum_needs_no_clamp_witness :
    0 < sampleStats.sampleCount ∧
      calculateActivityScore sampleStats 31000 = activityWeightedSum exactArith sampleStats 31000 ∧
      activityWeightedSum exactArith perfectStats 1000 = 1 :=
  ⟨by decide, (weighted_sum_needs_no_clamp sampleStats 31000 (by decide)).2.2.2.1,
    ((weighted_sum_needs_no_clamp perfectStats 1000 (by decide)).2.2.2.2 (by decide)
      (by decide)).mpr ⟨by decide, by decide, by decide, by decide⟩⟩


theorem constrain_mono {F : Type} [LinearOrder F] (a b lo hi : F) (hlh : lo ≤ hi)
    (hab : a ≤ b) : constrain a lo hi ≤ constrain b lo hi := by
  unfold constrain
  by_cases ha : a < lo
  · rw [if_pos ha]
    by_cases hb : b < lo
    · rw [if_pos hb]
    · rw [if_neg hb]
      by_cases hb2 : b > hi
      · rw [if_pos hb2]; exact hlh
      · rw [if_neg hb2]; exact not_lt.mp hb
  · rw [if_neg ha]
    have hb : ¬ b < lo := fun h => ha (lt_of_le_of_lt hab h)
    rw [if_neg hb]
    by_cases ha2 : a > hi
    · rw [if_pos ha2, if_pos (lt_of_lt_of_le ha2 hab)]
    · rw [if_neg ha2]
      by_cases hb2 : b > hi
      · rw [if_pos hb2]; exact not_lt.mp ha2
      · rw [if_neg hb2]; exact hab

theorem constrain_float_mono {F : Type} [LinearOrder F] (a b lo hi : F) (hlh : lo ≤ hi)
    (hab : a ≤ b) : constrain_float a lo hi ≤ constrain_float b lo hi :=
  constrain_mono a b lo hi hlh hab

theorem normalize_mono {F : Type} [LinearOrder F] (A : FloatArith F) (hA : MonotoneArith A)
    (a b minVal maxVal : F) (hab : a ≤ b) :
    normalize A a minVal maxVal ≤ normalize A b minVal maxVal := by
  unfold normalize
  by_cases h : maxVal ≤ minVal
  · rw [if_pos h, if_pos h]
  · rw [if_neg h, if_neg h]
    exact constrain_mono _ _ _ _ hA.zero_le_one
      (hA.div_mono _ _ _ (hA.sub_pos _ _ (not_le.mp h)) (hA.sub_mono _ _ _ hab))

theorem exactArith_monotone : MonotoneArith exactArith where
  zero_le_one := by norm_num [exactArith]
  ofInt_mono := fun x y h => by
    show ((x : Int) : ℚ) ≤ ((y : Int) : ℚ)
    exact_mod_cast h
  sub_mono := fun a b c h => by
    show a - c ≤ b - c
    linarith
  sub_pos := fun a b h => by
    show (0 : ℚ) < b - a
    linarith
  div_mono := fun a b c hc h => by
    show a / c ≤ b / c
    have hc0 : (0 : ℚ) < c := hc
    exact div_le_div_of_nonneg_right h (le_of_lt hc0)
  mul_mono := fun a b h => by
    show (35 / 100 : ℚ) * a ≤ 35 / 100 * b
    linarith
  add_mono := fun a b c h => by
    show a + c ≤ b + c
    linarith

/-- The weighted sum grows with `avgRssi` in every monotone arithmetic. -/
theorem activityWeightedSum_mono {F : Type} [LinearOrder F] (A : FloatArith F)
    (hA : MonotoneArith A) (stats : FrequencyStats) (r1 r2 : Int) (h : r1 ≤ r2) (now : Nat) :
    activityWeightedSum A { stats with avgRssi := r1 } now ≤
      activityWeightedSum A { stats with avgRssi := r2 } now := by
  unfold activityWeightedSum
  simp only
  refine hA.add_mono _ _ _ (hA.add_mono _ _ _ (hA.add_mono _ _ _ (hA.mul_mono _ _ ?_)))
  exact normalize_mono A hA _ _ _ _ (hA.ofInt_mono _ _ h)

/-- C30: of two `FrequencyStats` that differ only in `avgRssi`, evaluated at
the same clock reading, the one with the larger `avgRssi` scores at least as
much: in exact arithmetic, and in every arithmetic whose operations are
monotone as rounded floating-point operations are. -/
theorem activity_score_monotone_in_avgRssi (stats : FrequencyStats) (r1 r2 : Int)
    (h : r1 ≤ r2) (now : Nat) :
    calculateActivityScore { stats with avgRssi := r1 } now ≤
        calculateActivityScore { stats with avgRssi := r2 } now ∧
      ∀ (F : Type) [LinearOrder F] (A : FloatArith F), MonotoneArith A →
        calculateActivityScoreIn A { stats with avgRssi := r1 } now ≤
          calculateActivityScoreIn A { stats with avgRssi := r2 } now := by
  have gen : ∀ (F : Type) [LinearOrder F] (A : FloatArith F), MonotoneArith A →
      calculateActivityScoreIn A { stats with avgRssi := r1 } now ≤
        calculateActivityScoreIn A { stats with avgRssi := r2 } now := by
    intro F _ A hA
    unfold calculateActivityScoreIn
    by_cases hs : stats.sampleCount = 0
    · rw [if_pos hs, if_pos hs]
    · rw [if_neg hs, if_neg hs]
      exact constrain_float_mono _ _ _ _ hA.zero_le_one
        (activityWeightedSum_mono A hA stats r1 r2 h now)
  exact ⟨gen ℚ exactArith exactArith_monotone, gen⟩

/-- Witness for C30: raising `avgRssi` of the sample frequency from -70 to
-60 dBm does not lower its score. -/
theorem activity_score_monotone_in_avgRssi_witness :
    ((-70 : Int) ≤ -60) ∧
      calculateActivityScore { sampleStats with avgRssi := -70 } 31000 ≤
        calculateActivityScore { sampleStats with avgRssi := -60 } 31000 :=
  ⟨by decide, (activity_score_monotone_in_avgRssi sampleStats (-70) (-60) (by decide) 31000).1⟩

end LoRaScope
